import Mathlib

/-
Verification of the specification-extraction and comparison pipeline of the
ai-support-chat product-comparison service.

The development is a shallow embedding of the relevant Python source files:
  src/ai_support_agent/tools/transformers.py       (UnitTransformer)
  src/ai_support_agent/tools/pdf_processor.py      (PDFProcessor table parsing)
  src/ai_support_agent/tools/compare_processor.py  (CompareProcessor)
  src/ai_support_agent/types/pdf.py                (PDF content data model)
  src/ai_support_agent/types/comparison.py         (comparison data model)

Modelling conventions:
  - Python strings are modelled as lists of characters (abbreviation Str).
    Python str.lower / str.upper / str.capitalize / str.title are modelled on
    the character sets that occur in the embedded code: ASCII letters plus the
    Greek Omega / omega pair appearing in the canonical unit table; all other
    characters are case-fixed, as they are in Python for the inputs at hand.
  - Python dicts are modelled as insertion-ordered association lists with
    unique keys; assignment d[k] = v updates the first binding of k in place
    (preserving its position) or appends a fresh binding, exactly as a Python
    dict does.  Python sets used only for membership tests are modelled by
    list membership.
  - Python floats produced by float() on strings that pass the strict digit
    test of compare_processor.py are modelled exactly as scaled decimal
    integers (structure Dec below); str() of such a float is modelled in
    fixed decimal notation, which is what CPython produces for the decimal
    magnitudes that occur here.  Binary rounding and the scientific notation
    used by CPython outside [1e-4, 1e16) are idealized away.
  - I/O (reading PDF files, extracting page text and tables, writing diagram
    images, UUID generation) is outside the embedding: the functions below
    take the already-extracted table cell grids / documents as arguments, and
    the randomly generated comparison_id field is omitted from the embedded
    ComparisonResponse.  Pydantic field validations are not evaluated by the
    embedded constructors; where a validation constrains a claim it is made
    an explicit hypothesis.
-/

/-- A Python string, modelled as its list of characters. -/
abbrev Str := List Char

/-- Convert a Lean string literal to the Str model. -/
def str (s : String) : Str := s.data

/-- A Python dict with Str keys: an insertion-ordered association list. -/
abbrev Dict (α : Type) := List (Str × α)

/-- Python d.get(k) / k in d: find the first binding of the key. -/
def dget? {α : Type} : Dict α → Str → Option α
  | [], _ => none
  | (k, v) :: d, key => if k = key then some v else dget? d key

/-- Python d[k] = v: update the first binding of k in place, or append. -/
def dset {α : Type} : Dict α → Str → α → Dict α
  | [], key, v => [(key, v)]
  | (k, w) :: d, key, v =>
      if k = key then (key, v) :: d else (k, w) :: dset d key v

/-- Lookup with a default value. -/
def dgetD {α : Type} (d : Dict α) (key : Str) (v₀ : α) : α :=
  (dget? d key).getD v₀

/-- Python k in d. -/
def dmem {α : Type} (d : Dict α) (key : Str) : Bool :=
  (dget? d key).isSome

/-- The keys of a dict, in order. -/
def dkeys {α : Type} (d : Dict α) : List Str := d.map (·.1)

/-- Keys of a dict are pairwise distinct (true of every dict built by dset). -/
def NodupKeys {α : Type} (d : Dict α) : Prop := (dkeys d).Nodup

/-
Python string primitives used by the embedded code, modelled on Str.
-/

/-- Greek capital omega U+03A9, the resistance symbol of the unit table. -/
def omegaU : Char := Char.ofNat 937

/-- Greek small omega U+03C9, the lowercase image of omegaU. -/
def omegaL : Char := Char.ofNat 969

/-- Degree sign U+00B0 (caseless), used by the temperature units. -/
def degree : Char := Char.ofNat 176

/-- Bullet glyph U+2022 used by the feature/advantage lists. -/
def bullet : Char := Char.ofNat 8226

/-- Python str.lower on one character (ASCII letters plus the omega pair). -/
def pyCharLower (c : Char) : Char :=
  if c = omegaU then omegaL
  else if 'A' ≤ c ∧ c ≤ 'Z' then Char.ofNat (c.toNat + 32)
  else c

/-- Python str.upper on one character (ASCII letters plus the omega pair). -/
def pyCharUpper (c : Char) : Char :=
  if c = omegaL then omegaU
  else if 'a' ≤ c ∧ c ≤ 'z' then Char.ofNat (c.toNat - 32)
  else c

/-- Is the character a cased letter (for str.title word boundaries). -/
def pyIsAlpha (c : Char) : Bool :=
  (('A' ≤ c ∧ c ≤ 'Z') ∨ ('a' ≤ c ∧ c ≤ 'z') ∨ c = omegaU ∨ c = omegaL : Prop)

/-- Python str.lower. -/
def pyLower (s : Str) : Str := s.map pyCharLower

/-- Python str.upper. -/
def pyUpper (s : Str) : Str := s.map pyCharUpper

/-- Python str.capitalize: first character uppercased, the rest lowercased. -/
def pyCapitalize (s : Str) : Str :=
  match s with
  | [] => []
  | c :: t => pyCharUpper c :: pyLower t

/-- Python str.title: uppercase a letter that follows a non-letter,
lowercase every other letter. -/
def pyTitleAux : Bool → Str → Str
  | _, [] => []
  | afterAlpha, c :: t =>
      (if pyIsAlpha c then
        (if afterAlpha then pyCharLower c else pyCharUpper c)
      else c) :: pyTitleAux (pyIsAlpha c) t

/-- Python str.title. -/
def pyTitle (s : Str) : Str := pyTitleAux false s

/-- Python str.isspace characters stripped by str.strip. -/
def pyIsWs (c : Char) : Bool :=
  c = ' ' ∨ c = Char.ofNat 9 ∨ c = Char.ofNat 10 ∨ c = Char.ofNat 13 ∨
    c = Char.ofNat 11 ∨ c = Char.ofNat 12

/-- Python str.strip: drop whitespace from both ends. -/
def pyStrip (s : Str) : Str :=
  ((s.dropWhile pyIsWs).reverse.dropWhile pyIsWs).reverse

/-- Python s.split(sep, 1) for a one-character separator: the part before
the first occurrence, and (when the separator occurs) the rest. -/
def pySplitOnce : Str → Char → Str × Option Str
  | [], _ => ([], none)
  | a :: t, c =>
      if a = c then ([], some t)
      else
        let r := pySplitOnce t c
        (a :: r.1, r.2)

/-- Python s.split(sep) for a one-character separator (no limit). -/
def pySplitAll : Str → Char → List Str
  | [], _ => [[]]
  | a :: t, c =>
      match pySplitAll t c with
      | [] => [[]]
      | h :: r => if a = c then [] :: h :: r else (a :: h) :: r

/-- Does s start with the prefix p (Python str.startswith). -/
def strStartsWith : Str → Str → Bool
  | _, [] => true
  | [], _ :: _ => false
  | a :: s, b :: p => a = b && strStartsWith s p

/-- Python substring containment: p in s. -/
def strContains : Str → Str → Bool
  | [], p => strStartsWith [] p
  | s@(_ :: t), p => strStartsWith s p || strContains t p

/-- Python truthiness of an Optional[str]: None and the empty string are falsy. -/
def pyFalsyOptStr (u : Option Str) : Bool :=
  match u with
  | none => true
  | some s => s.isEmpty

/-
Embedding of src/ai_support_agent/tools/transformers.py.
-/

/-- UnitType enumeration of transformers.py. -/
inductive UnitType where
  | temperature | resistance | voltage | current | power | time
  | frequency | capacitance | inductance | volume | magnetic
deriving DecidableEq, Repr

/-- UnitStandard record of transformers.py.  The suffixes map is the same
constant for every entry (see stdSuffixes below) and is not repeated here. -/
structure UnitStandard where
  symbol : Str
  display : Str
  type : UnitType
deriving DecidableEq, Repr

/-- The resistance symbol, a one-character Greek capital omega string. -/
def strOmega : Str := [omegaU]

/-- UnitTransformer.STANDARD_UNITS: the canonical unit table, keyed by every
known raw spelling / case variant, in source order. -/
def STANDARD_UNITS : Dict UnitStandard := [
  (degree :: str "C", ⟨degree :: str "C", degree :: str "C", .temperature⟩),
  (degree :: str "F", ⟨degree :: str "F", degree :: str "F", .temperature⟩),
  (str "ohm", ⟨strOmega, strOmega, .resistance⟩),
  (str "ohms", ⟨strOmega, strOmega, .resistance⟩),
  (str "Ohm", ⟨strOmega, strOmega, .resistance⟩),
  (str "Ohms", ⟨strOmega, strOmega, .resistance⟩),
  (str "V", ⟨str "V", str "V", .voltage⟩),
  (str "VDC", ⟨str "VDC", str "VDC", .voltage⟩),
  (str "VAC", ⟨str "VAC", str "VAC", .voltage⟩),
  (str "Volts", ⟨str "V", str "V", .voltage⟩),
  (str "A", ⟨str "A", str "A", .current⟩),
  (str "Amp", ⟨str "A", str "A", .current⟩),
  (str "Amps", ⟨str "A", str "A", .current⟩),
  (str "mA", ⟨str "mA", str "mA", .current⟩),
  (str "W", ⟨str "W", str "W", .power⟩),
  (str "Watt", ⟨str "W", str "W", .power⟩),
  (str "Watts", ⟨str "W", str "W", .power⟩),
  (str "ms", ⟨str "ms", str "ms", .time⟩),
  (str "msec", ⟨str "ms", str "ms", .time⟩),
  (str "msecs", ⟨str "ms", str "ms", .time⟩),
  (str "mSeconds", ⟨str "ms", str "ms", .time⟩),
  (str "millisecond", ⟨str "ms", str "ms", .time⟩),
  (str "milliseconds", ⟨str "ms", str "ms", .time⟩),
  (str "Milliseconds", ⟨str "ms", str "ms", .time⟩),
  (str "MILLISECONDS", ⟨str "ms", str "ms", .time⟩),
  (str "CC", ⟨str "cc", str "cc", .volume⟩),
  (str "cc", ⟨str "cc", str "cc", .volume⟩),
  (str "cubic centimeter", ⟨str "cc", str "cc", .volume⟩),
  (str "cubic centimeters", ⟨str "cc", str "cc", .volume⟩),
  (str "CUBIC CENTIMETERS", ⟨str "cc", str "cc", .volume⟩),
  (str "Cubic Centimeters", ⟨str "cc", str "cc", .volume⟩),
  (str "Cubic centimeters", ⟨str "cc", str "cc", .volume⟩),
  (str "pF", ⟨str "pF", str "pF", .capacitance⟩),
  (str "picofarad", ⟨str "pF", str "pF", .capacitance⟩),
  (str "picofarads", ⟨str "pF", str "pF", .capacitance⟩),
  (str "mH", ⟨str "mH", str "mH", .inductance⟩),
  (str "millihenry", ⟨str "mH", str "mH", .inductance⟩),
  (str "millihenries", ⟨str "mH", str "mH", .inductance⟩),
  (str "AT", ⟨str "AT", str "AT", .magnetic⟩),
  (str "Ampere Turn", ⟨str "AT", str "AT", .magnetic⟩),
  (str "Ampere Turns", ⟨str "AT", str "AT", .magnetic⟩),
  (str "ampere turn", ⟨str "AT", str "AT", .magnetic⟩),
  (str "ampere turns", ⟨str "AT", str "AT", .magnetic⟩),
  (str "AMPERE TURNS", ⟨str "AT", str "AT", .magnetic⟩)]

/-- The standard suffixes abbreviated by standardize_unit. -/
def stdSuffixes : List Str :=
  [str "maximum", str "minimum", str "nominal", str "typical"]

/-- The case variations standardize_unit tries against the table, in order:
exact, lower, upper, capitalize, title; first match wins. -/
def lookupStandard (base : Str) : Option UnitStandard :=
  match dget? STANDARD_UNITS base with
  | some s => some s
  | none =>
    match dget? STANDARD_UNITS (pyLower base) with
    | some s => some s
    | none =>
      match dget? STANDARD_UNITS (pyUpper base) with
      | some s => some s
      | none =>
        match dget? STANDARD_UNITS (pyCapitalize base) with
        | some s => some s
        | none => dget? STANDARD_UNITS (pyTitle base)

/-- UnitTransformer.standardize_unit: split into base unit and optional
suffix on the first dash, look the base up under the five case variations,
abbreviate a standard suffix to its first three letters, and pass unknown
units through unchanged. -/
def standardize_unit (unit : Option Str) : Option Str :=
  if pyFalsyOptStr unit then none
  else
    let u := unit.getD []
    let split := pySplitOnce u '-'
    let base_unit := pyStrip (pyStrip split.1)
    let suffix := split.2.map (fun s => pyStrip (pyStrip s))
    match lookupStandard base_unit with
    | none => some u
    | some standard =>
      match suffix with
      | some sfx =>
        if sfx.isEmpty then some standard.display
        else
          let suffix_lower := pyLower sfx
          if stdSuffixes.contains suffix_lower then
            some (standard.display ++ str " - " ++ suffix_lower.take 3)
          else some (standard.display ++ str " - " ++ sfx)
      | none => some standard.display

/-- UnitTransformer.format_display_value: the value alone when the unit is
absent or empty, otherwise value, space, unit (the range branch of the
source produces the identical string and is kept as written). -/
def format_display_value (value : Str) (unit : Option Str) : Str :=
  if pyFalsyOptStr unit then value
  else
    let u := unit.getD []
    if strContains value (str "to") then value ++ ' ' :: u
    else value ++ ' ' :: u

example : standardize_unit (some (str "Ohms - maximum")) =
    some (strOmega ++ str " - max") := by decide
example : standardize_unit (some (str "ohm")) = some strOmega := by decide
example : standardize_unit (some (str "Banana")) = some (str "Banana") := by
  decide
example : standardize_unit (some (str "V")) = some (str "V") := by decide
example : standardize_unit (some []) = none := by decide
example : standardize_unit (some (strOmega ++ str " - max")) =
    some (strOmega ++ str " - max") := by decide

/-
Embedding of the PDF content data model (types/pdf.py) and of the table
parsing of src/ai_support_agent/tools/pdf_processor.py.
-/

/-- PDFSpecification of types/pdf.py: leaf value with optional unit.  The
display_value field is a computed property, embedded as the function
PDFSpecification.display_value below. -/
structure PDFSpecification where
  unit : Option Str
  value : Str
deriving DecidableEq, Repr

/-- The computed display_value property of PDFSpecification. -/
def PDFSpecification.display_value (s : PDFSpecification) : Str :=
  format_display_value s.value s.unit

instance : DecidableEq (Dict PDFSpecification) := inferInstance

instance : DecidableEq (Dict (Dict PDFSpecification)) := inferInstance

instance : DecidableEq (Dict (Dict (Dict PDFSpecification))) := inferInstance

/-- PDFCategory of types/pdf.py. -/
structure PDFCategory where
  subcategories : Dict PDFSpecification
deriving DecidableEq, Repr

/-- PDFSection of types/pdf.py. -/
structure PDFSection where
  categories : Dict PDFCategory
deriving DecidableEq, Repr

/-- PDFContent of types/pdf.py.  The raw_text, metadata and pages fields are
carried through extraction unchanged and never read by the parsing or
comparison code under verification, so they are omitted here. -/
structure PDFContent where
  model_number : Option Str
  sections : Dict PDFSection
deriving DecidableEq, Repr

/-- PDFContent.get_specification: nested key lookup, with the source's
KeyError-to-None control flow rendered as Option. -/
def PDFContent.get_specification (m : PDFContent)
    (sect category subcategory : Str) : Option PDFSpecification :=
  match dget? m.sections sect with
  | none => none
  | some sec =>
    match dget? sec.categories category with
    | none => none
    | some cat => dget? cat.subcategories subcategory

/-- PDFProcessor.section_patterns. -/
def section_patterns : Dict Str :=
  [(str "electrical", str "electrical specifications"),
   (str "magnetic", str "magnetic specifications"),
   (str "physical", str "physical/operational specifications")]

/-- PDFProcessor.section_order. -/
def section_order : List Str := [str "electrical", str "magnetic", str "physical"]

/-- The electrical keyword list of get_section_for_category. -/
def electricalTerms : List Str :=
  [str "power", str "voltage", str "current", str "resistance",
   str "capacitance", str "temperature", str "electrical"]

/-- The magnetic keyword list of get_section_for_category, exactly as in the
source: the first keyword is the five-character text pull - in with spaces
around the dash, not pull-in. -/
def magneticTerms : List Str :=
  [str "pull - in", str "test coil", str "magnetic"]

/-- The physical keyword list of get_section_for_category. -/
def physicalTerms : List Str :=
  [str "capsule", str "contact material", str "operate time",
   str "release time", str "physical", str "operational"]

/-- Python a or b for an Optional[str] a: b when a is None or empty. -/
def pyOrStr (a : Option Str) (b : Str) : Str :=
  match a with
  | none => b
  | some s => if s.isEmpty then b else s

/-- get_section_for_category (closure inside _parse_table_to_specs): match
the lowercased category text against the three keyword lists in order,
falling back to the current section or the first canonical section. -/
def get_section_for_category (current_section : Option Str) (category : Str) :
    Str :=
  let category_lower := pyLower category
  if electricalTerms.any (fun t => strContains category_lower t) then
    dgetD section_patterns (str "electrical") []
  else if magneticTerms.any (fun t => strContains category_lower t) then
    dgetD section_patterns (str "magnetic") []
  else if physicalTerms.any (fun t => strContains category_lower t) then
    dgetD section_patterns (str "physical") []
  else
    pyOrStr current_section (dgetD section_patterns (section_order.headD []) [])

/-- The loop state of _parse_table_to_specs: the accumulated nested
specification map and the carry-forward category / section. -/
structure ParseState where
  specs : Dict (Dict (Dict PDFSpecification))
  current_category : Option Str
  current_section : Option Str
deriving DecidableEq, Repr

/-- Python truthiness of the category variable (None and empty are falsy). -/
def pyTruthyOpt (s : Option Str) : Bool := !(pyFalsyOptStr s)

/-- Ensure a section key exists in the nested parse map. -/
def ensureSection (specs : Dict (Dict (Dict PDFSpecification)))
    (section_name : Str) : Dict (Dict (Dict PDFSpecification)) :=
  if !(dmem specs section_name) then dset specs section_name [] else specs

/-- Category registration inside the row loop: ensure the section and the
category exist in the nested map (with empty maps) without overwriting. -/
def registerCategory (specs : Dict (Dict (Dict PDFSpecification)))
    (section_name c : Str) : Dict (Dict (Dict PDFSpecification)) :=
  if !(dmem (dgetD (ensureSection specs section_name) section_name []) c)
  then dset (ensureSection specs section_name) section_name
    (dset (dgetD (ensureSection specs section_name) section_name []) c [])
  else ensureSection specs section_name

/-- Ensure a category key exists in one section's inner map. -/
def ensureInnerCat (inner : Dict (Dict PDFSpecification)) (c : Str) :
    Dict (Dict PDFSpecification) :=
  if !(dmem inner c) then dset inner c [] else inner

/-- Specification insertion inside the row loop: store the parsed
specification under section / category / subcategory. -/
def insertSpec (specs : Dict (Dict (Dict PDFSpecification)))
    (cs c subcategory : Str) (spec : PDFSpecification) :
    Dict (Dict (Dict PDFSpecification)) :=
  dset specs cs
    (dset (ensureInnerCat (dgetD specs cs []) c) c
      (dset (dgetD (ensureInnerCat (dgetD specs cs []) c) c [])
        subcategory spec))

/-- The unit-and-value part of the row loop: with at least four cleaned
cells and a truthy category and current section, standardize the unit of
column three and store the value of column four under the subcategory key
(both the named- and empty-subcategory branches of the source store the
spec under that key: the transient empty-dict assignment to a fresh named
subcategory is immediately overwritten). -/
def processRowValue (row_data : List Str) (category : Option Str)
    (subcategory : Str) (st1 : ParseState) : ParseState :=
  if 3 < row_data.length then
    if pyTruthyOpt category && pyTruthyOpt st1.current_section then
      ParseState.mk
        (insertSpec st1.specs (st1.current_section.getD [])
          (category.getD []) subcategory
          (PDFSpecification.mk
            (standardize_unit
              (if (row_data.getD 2 []).isEmpty then none
               else some (pyStrip (row_data.getD 2 []))))
            (pyStrip (row_data.getD 3 []))))
        st1.current_category st1.current_section
    else st1
  else st1

/-- The category registration part of the row loop: with a truthy category,
infer its section and register both as the carry-forward state. -/
def processRowCategory (st : ParseState) (category : Option Str) :
    ParseState :=
  if pyTruthyOpt category then
    ParseState.mk
      (registerCategory st.specs
        (get_section_for_category st.current_section (category.getD []))
        (category.getD []))
      (some (category.getD []))
      (some (get_section_for_category st.current_section (category.getD [])))
  else st

/-- One iteration of the row loop of _parse_table_to_specs over the cleaned
row cells: skip blank rows, take the category from the first cell or the
carry-forward state (the source's if not category and subcategory line is
a no-op: with an empty first cell, category already equals the
carry-forward value), the subcategory from the second cell. -/
def processRowCells (st : ParseState) (row_data : List Str) : ParseState :=
  if !row_data.any (fun c => !c.isEmpty) then st
  else
    processRowValue row_data
      (if (row_data.headD []).isEmpty then st.current_category
       else some (row_data.headD []))
      (if (row_data.getD 1 []).isEmpty then [] else row_data.getD 1 [])
      (processRowCategory st
        (if (row_data.headD []).isEmpty then st.current_category
         else some (row_data.headD [])))

/-- One iteration of the row loop of _parse_table_to_specs: clean the cells
and process them. -/
def processRow (st : ParseState) (row : List Str) : ParseState :=
  processRowCells st
    (row.map (fun cell => if cell.isEmpty then [] else pyStrip cell))

/-- Python l[-2:]. -/
def lastTwo {α : Type} (l : List α) : List α := l.drop (l.length - 2)

/-- The cleaned first row of a table. -/
def cleanedFirstRow (row0 : List Str) : List Str :=
  row0.map (fun col => if col.isEmpty then [] else pyStrip col)

/-- Is this the two-column Features / Advantages table (handled by the
feature merger, skipped by the specification parser). -/
def isFeaturesTable (first_row : List Str) : Bool :=
  decide (first_row.length = 2) &&
    strContains (first_row.headD []) (str "Features") &&
    strContains (first_row.getD 1 []) (str "Advantages")

/-- The heuristic deciding whether the first row is itself data: at least
three columns, a non-empty category cell, and a non-empty cell among the
last two. -/
def is_first_row_data (first_row : List Str) : Bool :=
  decide (3 ≤ first_row.length) && !(first_row.headD []).isEmpty &&
    (lastTwo first_row).any (fun c => !c.isEmpty)

/-- Run the row loop from the empty parse state. -/
def parseRows (rows : List (List Str)) :
    Dict (Dict (Dict PDFSpecification)) :=
  (rows.foldl processRow (ParseState.mk [] none none)).specs

/-- PDFProcessor._parse_table_to_specs: classify and parse one extracted
table into the nested section / category / subcategory map. -/
def _parse_table_to_specs (table : List (List Str)) :
    Dict (Dict (Dict PDFSpecification)) :=
  match table with
  | [] => []
  | row0 :: rest =>
    if isFeaturesTable (cleanedFirstRow row0) then []
    else
      parseRows
        (if is_first_row_data (cleanedFirstRow row0) then row0 :: rest
         else rest)

/-- One category assignment of _process_specification_tables:
sections[sname].categories[q.1] = PDFCategory(q.2), replacing any earlier
binding of that category name. -/
def catAssign (sname : Str) (sections : Dict PDFSection)
    (q : Str × Dict PDFSpecification) : Dict PDFSection :=
  dset sections sname
    (PDFSection.mk
      (dset (dgetD sections sname (PDFSection.mk [])).categories q.1
        (PDFCategory.mk q.2)))

/-- One parsed section of one table in _process_specification_tables:
create the section if absent, then assign each category. -/
def sectionAssign (sections : Dict PDFSection)
    (p : Str × Dict (Dict PDFSpecification)) : Dict PDFSection :=
  p.2.foldl (catAssign p.1)
    (if !(dmem sections p.1) then dset sections p.1 (PDFSection.mk [])
     else sections)

/-- One table in _process_specification_tables. -/
def tableAssign (sections : Dict PDFSection) (table : List (List Str)) :
    Dict PDFSection :=
  if (_parse_table_to_specs table).isEmpty then sections
  else (_parse_table_to_specs table).foldl sectionAssign sections

/-- PDFProcessor._process_specification_tables: fold the per-table parse
results into PDFSection values.  Note that a repeated category name is
assigned, not merged: the later table's subcategory map replaces the
earlier one. -/
def _process_specification_tables (tables : List (List (List Str))) :
    Dict PDFSection :=
  tables.foldl tableAssign []

example :
    _parse_table_to_specs
      [[str "Voltage", str "", str "V", str "24"],
       [str "", str "Max", str "V", str "30"]] =
    [(str "electrical specifications",
      [(str "Voltage",
        [(str "", ⟨some (str "V"), str "24"⟩),
         (str "Max", ⟨some (str "V"), str "30"⟩)])])] := by decide

/-
Exact decimal model of the float coercion in compare_processor.py.
-/

/-- Python value.replace(".", "", 1): remove the first dot, if any. -/
def removeFirstDot : Str → Str
  | [] => []
  | c :: t => if c = '.' then t else c :: removeFirstDot t

/-- Python str.isdigit: non-empty and all digits (restricted to ASCII). -/
def pyIsDigitStr (s : Str) : Bool := !s.isEmpty && s.all Char.isDigit

/-- The strict numeric test of _process_specifications:
value.replace(".", "", 1).isdigit(). -/
def isStrictNumeric (s : Str) : Bool := pyIsDigitStr (removeFirstDot s)

/-- A nonnegative decimal number num / 10 ^ exp: the exact value of the
Python float produced by float() on a string passing isStrictNumeric. -/
structure Dec where
  num : Nat
  exp : Nat
deriving DecidableEq, Repr

/-- Numeric value of a digit string. -/
def natOfDigits (s : Str) : Nat :=
  s.foldl (fun n c => n * 10 + (c.toNat - 48)) 0

/-- Python float() on a string passing isStrictNumeric: digits before the
first dot are the integer part, digits after it the fractional part. -/
def parseDec (s : Str) : Dec :=
  match pySplitOnce s '.' with
  | (ip, none) => ⟨natOfDigits ip, 0⟩
  | (ip, some fp) => ⟨natOfDigits (ip ++ fp), fp.length⟩

/-- The rational value of a Dec. -/
def Dec.toRat (d : Dec) : ℚ := (d.num : ℚ) / (10 : ℚ) ^ d.exp

/-- Strict comparison of Dec values by cross multiplication. -/
def Dec.blt (a b : Dec) : Bool := a.num * 10 ^ b.exp < b.num * 10 ^ a.exp

/-- Python max(l, key) over a non-empty list (first element passed apart):
an element replaces the current maximum only when strictly greater, so the
first of several maxima wins. -/
def pyMaxBy {α : Type} (f : α → Dec) : α → List α → α
  | a, [] => a
  | a, b :: t => pyMaxBy f (if Dec.blt (f a) (f b) then b else a) t

/-- Python max over a non-empty list of floats. -/
def pyMaxD : Dec → List Dec → Dec
  | a, [] => a
  | a, b :: t => pyMaxD (if Dec.blt a b then b else a) t

/-- Python min over a non-empty list of floats. -/
def pyMinD : Dec → List Dec → Dec
  | a, [] => a
  | a, b :: t => pyMinD (if Dec.blt b a then b else a) t

/-- The character of a decimal digit. -/
def digitChar (n : Nat) : Char := Char.ofNat (48 + n)

/-- Decimal digits of a natural number (fuel-structured for kernel
reduction; the fuel n + 1 always suffices). -/
def natToDigitsAux : Nat → Nat → Str → Str
  | 0, _, acc => acc
  | fuel + 1, n, acc =>
      if n < 10 then digitChar n :: acc
      else natToDigitsAux fuel (n / 10) (digitChar (n % 10) :: acc)

/-- Decimal digit string of a natural number, no leading zeros. -/
def natToDigits (n : Nat) : Str := natToDigitsAux (n + 1) n []

/-- Drop trailing zero characters. -/
def stripTrailingZeros (s : Str) : Str :=
  (s.reverse.dropWhile (· = '0')).reverse

/-- Left-pad with zero characters to the given length. -/
def leftPadZeros (n : Nat) (s : Str) : Str :=
  List.replicate (n - s.length) '0' ++ s

/-- Python str() of the float a Dec stands for, in fixed decimal notation:
integer part, dot, fractional part with trailing zeros removed, a lone
zero after the dot when the value is integral.  This is CPython repr for
the decimal magnitudes handled here (scientific notation outside the
fixed-notation range is idealized away). -/
def pyFloatStr (d : Dec) : Str :=
  let ds := leftPadZeros (d.exp + 1) (natToDigits d.num)
  let ip := ds.take (ds.length - d.exp)
  let fp := stripTrailingZeros (ds.drop (ds.length - d.exp))
  if fp.isEmpty then ip ++ str ".0" else ip ++ '.' :: fp

example : isStrictNumeric (str "24") = true := by decide
example : isStrictNumeric (str "2.5.1") = false := by decide
example : isStrictNumeric (str ".5") = true := by decide
example : isStrictNumeric (str "-4") = false := by decide
example : pyFloatStr (parseDec (str "30")) = str "30.0" := by decide
example : pyFloatStr (parseDec (str "0.50")) = str "0.5" := by decide
example : pyFloatStr (parseDec (str "24.25")) = str "24.25" := by decide

/-
Embedding of the comparison data model (types/comparison.py and
types/differences.py).
-/

/-- SpecificationValue of types/comparison.py. -/
structure SpecificationValue where
  unit : Option Str
  value : Str
  display_value : Str
deriving DecidableEq, Repr

/-- ComparisonFeature of types/comparison.py. -/
structure ComparisonFeature where
  text : Str
  models : Dict Bool
deriving DecidableEq, Repr

/-- ComparisonSpecification of types/comparison.py.  The analysis field is
None throughout the comparison pipeline and is omitted. -/
structure ComparisonSpecification where
  category : Str
  specification : Str
  values : Dict SpecificationValue
  has_differences : Bool
deriving DecidableEq, Repr

/-- Difference of types/differences.py.  The optional context field is
never set by the comparator and is omitted; subcategory, always set by the
comparator, is embedded as Str. -/
structure Difference where
  model : Str
  category : Str
  subcategory : Str
  specification : Str
  difference : Str
  unit : Option Str
  values : Dict Str
deriving DecidableEq, Repr

/-- A value of the categories map of ComparisonSection: either a list of
features or a list of specifications. -/
inductive CompCats where
  | feats : List ComparisonFeature → CompCats
  | specs : List ComparisonSpecification → CompCats
deriving DecidableEq, Repr

/-- ComparisonSection of types/comparison.py. -/
structure ComparisonSection where
  categories : Dict CompCats
deriving DecidableEq, Repr

/-- ComparisonResponse of types/comparison.py.  The comparison_id field is
a freshly generated UUID, outside the pure embedding, and is omitted. -/
structure ComparisonResponse where
  model_numbers : List Str
  sections : Dict ComparisonSection
  differences_count : Nat
deriving DecidableEq, Repr

/-
Embedding of src/ai_support_agent/tools/compare_processor.py.
-/

/-- Does a line open a new bullet item (startswith bullet glyph or dash). -/
def isBulletStart (line : Str) : Bool :=
  strStartsWith line [bullet] || strStartsWith line ['-']

/-- The line-wrapped bullet reassembly loop of _process_feature_type: a
bullet line starts a new item, any other line is space-joined onto the
current item; the trailing item is flushed at the end. -/
def assembleItems : List Str → Str → List Str
  | [], current => if current.isEmpty then [] else [current]
  | line :: rest, current =>
      if isBulletStart line then
        (if current.isEmpty then [] else [current]) ++ assembleItems rest line
      else
        assembleItems rest (if current.isEmpty then line else current ++ ' ' :: line)

/-- Split the stored feature/advantage text into stripped non-blank lines. -/
def featureLines (value : Str) : List Str :=
  ((pySplitAll value (Char.ofNat 10)).map pyStrip).filter (fun l => !l.isEmpty)

/-- Set the current model's presence flag on the first feature whose text
matches the item, as the for/break update loop of the source does. -/
def updateFirstFeature : List ComparisonFeature → Str → Str → List ComparisonFeature
  | [], _, _ => []
  | f :: t, item, name =>
      if f.text = item then
        ComparisonFeature.mk f.text (dset f.models name true) :: t
      else f :: updateFirstFeature t item name

/-- Merge one model's processed items into the accumulated feature list and
seen-text set: a seen text updates the existing entry in place, an unseen
text appends a fresh entry whose flags are true only for this model. -/
def mergeItems (mns : List Str) (name : Str) (items : List Str)
    (acc : List ComparisonFeature × List Str) :
    List ComparisonFeature × List Str :=
  items.foldl
    (fun acc item =>
      if acc.2.contains item then
        (updateFirstFeature acc.1 item name, acc.2)
      else
        (acc.1 ++ [ComparisonFeature.mk item
            (mns.foldl (fun d n => dset d n (decide (n = name))) [])],
         item :: acc.2))
    acc

/-- One model's contribution in _process_feature_type: locate the feature
block under Features_And_Advantages / feature_type / empty subcategory and
merge its bullet items. -/
def featureStep (models : Dict PDFContent) (mns : List Str) (ft : Str)
    (acc : List ComparisonFeature × List Str) (name : Str) :
    List ComparisonFeature × List Str :=
  match dget? models name with
  | none => acc
  | some model =>
    match dget? model.sections (str "Features_And_Advantages") with
    | none => acc
    | some sec =>
      match dget? sec.categories ft with
      | none => acc
      | some cat =>
        match dget? cat.subcategories [] with
        | none => acc
        | some spec =>
          if spec.value.isEmpty then acc
          else mergeItems mns name (assembleItems (featureLines spec.value) []) acc

/-- CompareProcessor._process_feature_type. -/
def _process_feature_type (models : Dict PDFContent) (mns : List Str)
    (ft : Str) : List ComparisonFeature :=
  (mns.foldl (featureStep models mns ft) ([], [])).1

/-- CompareProcessor._process_features. -/
def _process_features (models : Dict PDFContent) (mns : List Str) :
    List ComparisonFeature :=
  _process_feature_type models mns (str "features")

/-- CompareProcessor._process_advantages. -/
def _process_advantages (models : Dict PDFContent) (mns : List Str) :
    List ComparisonFeature :=
  _process_feature_type models mns (str "advantages")

/-- The innermost loop of the combination enumeration: record an unseen
(section, category, specification) triple, keeping first-seen order. -/
def comboAdd (sname cname : Str) (combos : List (Str × Str × Str))
    (scp : Str × PDFSpecification) : List (Str × Str × Str) :=
  if combos.contains (sname, cname, scp.1) then combos
  else combos ++ [(sname, cname, scp.1)]

/-- Enumerate one category's subcategory keys as combinations. -/
def categoryCombos (sname : Str) (combos : List (Str × Str × Str))
    (cp : Str × PDFCategory) : List (Str × Str × Str) :=
  cp.2.subcategories.foldl (comboAdd sname cp.1) combos

/-- One section of one model in phase one of _process_specifications: skip
the synthetic sections, initialize the section's result list, and record
this section's combinations. -/
def comboSectionStep
    (acc : Dict (List ComparisonSpecification) × List (Str × Str × Str))
    (sp : Str × PDFSection) :
    Dict (List ComparisonSpecification) × List (Str × Str × Str) :=
  if sp.1 = str "Features_And_Advantages" ∨ sp.1 = str "Diagram" then acc
  else
    let sections := if !(dmem acc.1 sp.1) then dset acc.1 sp.1 [] else acc.1
    let combos := sp.2.categories.foldl (categoryCombos sp.1) acc.2
    (sections, combos)

/-- One model in phase one of _process_specifications. -/
def comboModelStep (models : Dict PDFContent)
    (acc : Dict (List ComparisonSpecification) × List (Str × Str × Str))
    (name : Str) :
    Dict (List ComparisonSpecification) × List (Str × Str × Str) :=
  match dget? models name with
  | none => acc
  | some model => model.sections.foldl comboSectionStep acc

/-- Phase one of _process_specifications: initialize the per-section result
lists and enumerate the unique (section, category, specification)
combinations in first-seen order over the model iteration. -/
def collectCombos (models : Dict PDFContent) (mns : List Str) :
    Dict (List ComparisonSpecification) × List (Str × Str × Str) :=
  mns.foldl (comboModelStep models) ([], [])

/-- Collect a SpecificationValue per model holding the given triple, in
model order; models lacking the triple are absent from the map. -/
def collectValues (models : Dict PDFContent) (mns : List Str)
    (sect category specn : Str) : Dict SpecificationValue :=
  mns.foldl
    (fun vals name =>
      match dget? models name with
      | none => vals
      | some m =>
        match m.get_specification sect category specn with
        | none => vals
        | some sp =>
          dset vals name
            (SpecificationValue.mk sp.unit sp.value sp.display_value))
    []

/-- Python ", ".join. -/
def joinCommaSpace : List Str → Str
  | [] => []
  | [s] => s
  | s :: rest => s ++ str ", " ++ joinCommaSpace rest

/-- The Difference record built for a triple with differing values.  When
every collected value passes the strict numeric test the extreme model is
the first one maximizing abs(float(value)) (all such floats are
nonnegative, so the Dec value itself is the key) and the description shows
the maximal and minimal floats; otherwise the first model is reported
against the comma-joined others.  Only called on non-empty value maps; the
empty case is an unreachable placeholder. -/
def buildDifference (sect category specn : Str) :
    Dict SpecificationValue → Difference
  | [] => Difference.mk [] sect category specn [] none []
  | v0 :: rest =>
    let vlist := v0 :: rest
    if vlist.all (fun p => isStrictNumeric p.2.value) then
      let extreme_model := (pyMaxBy (fun p => parseDec p.2.value) v0 rest).1
      let mx := pyMaxD (parseDec v0.2.value) (rest.map (fun p => parseDec p.2.value))
      let mn := pyMinD (parseDec v0.2.value) (rest.map (fun p => parseDec p.2.value))
      Difference.mk extreme_model sect category specn
        (str "Value of " ++ pyFloatStr mx ++ str " vs " ++ pyFloatStr mn)
        v0.2.unit (vlist.map (fun p => (p.1, p.2.value)))
    else
      let extreme_model := v0.1
      let other_values :=
        (vlist.filter (fun p => decide (p.1 ≠ extreme_model))).map
          (fun p => p.2.value)
      Difference.mk extreme_model sect category specn
        (str "Value of " ++
          ((dget? vlist extreme_model).getD (SpecificationValue.mk none [] [])).value
          ++ str " vs " ++ joinCommaSpace other_values)
        v0.2.unit (vlist.map (fun p => (p.1, p.2.value)))

/-- Phase two of _process_specifications, one combination: collect values,
decide has_differences from the set of distinct raw value strings, append
the ComparisonSpecification, and record a Difference when values differ. -/
def specStep (models : Dict PDFContent) (mns : List Str)
    (acc : Dict (List ComparisonSpecification) × List Difference)
    (combo : Str × Str × Str) :
    Dict (List ComparisonSpecification) × List Difference :=
  let values := collectValues models mns combo.1 combo.2.1 combo.2.2
  if values.isEmpty then acc
  else
    let unique_values := (values.map (fun p => p.2.value)).dedup
    let has_differences := decide (1 < unique_values.length)
    let cs := ComparisonSpecification.mk combo.2.1 combo.2.2 values has_differences
    (dset acc.1 combo.1 (dgetD acc.1 combo.1 [] ++ [cs]),
     if has_differences then
       acc.2 ++ [buildDifference combo.1 combo.2.1 combo.2.2 values]
     else acc.2)

/-- CompareProcessor._process_specifications. -/
def _process_specifications (models : Dict PDFContent) (mns : List Str) :
    Dict (List ComparisonSpecification) × List Difference :=
  let init := collectCombos models mns
  init.2.foldl (specStep models mns) (init.1, [])

/-- The per-section grouping of specifications by category name performed
inside compare_models. -/
def groupByCategory (specs : List ComparisonSpecification) :
    Dict (List ComparisonSpecification) :=
  specs.foldl
    (fun cats sp => dset cats sp.category (dgetD cats sp.category [] ++ [sp]))
    []

/-- CompareProcessor.compare_models, with the I/O of _collect_model_data
factored out: the models argument is the dict of successfully loaded
documents keyed by extracted-or-requested model number.  No precondition
on the number of available documents is checked anywhere: an empty dict
yields an empty response and any non-empty dict is processed. -/
def compare_models (models : Dict PDFContent) (mns : List Str) :
    ComparisonResponse :=
  if models.isEmpty then ComparisonResponse.mk mns [] 0
  else
    let features := _process_features models mns
    let advantages := _process_advantages models mns
    let sd := _process_specifications models mns
    let response_sections : Dict ComparisonSection :=
      if !features.isEmpty || !advantages.isEmpty then
        let categories : Dict CompCats :=
          (if !features.isEmpty then [(str "features", CompCats.feats features)]
           else []) ++
          (if !advantages.isEmpty then
            [(str "advantages", CompCats.feats advantages)]
           else [])
        if categories.isEmpty then []
        else [(str "Features_And_Advantages", ComparisonSection.mk categories)]
      else []
    let response_sections :=
      sd.1.foldl
        (fun rs sp =>
          dset rs sp.1
            (ComparisonSection.mk
              ((groupByCategory sp.2).map (fun c => (c.1, CompCats.specs c.2)))))
        response_sections
    ComparisonResponse.mk mns response_sections sd.2.length

/-- A single-specification document: one electrical Voltage value with unit
V, the shape used by the concrete comparison scenarios. -/
def voltageContent (v : String) : PDFContent :=
  PDFContent.mk none
    [(str "electrical specifications",
      PDFSection.mk [(str "Voltage",
        PDFCategory.mk [([], PDFSpecification.mk (some (str "V")) (str v))])])]

/-- Two documents with Voltage values 24 and 30. -/
def cmpModels : Dict PDFContent :=
  [(str "A", voltageContent "24"), (str "B", voltageContent "30")]

/-- The two requested model numbers of the concrete scenario. -/
def cmpMns : List Str := [str "A", str "B"]

/-- The invariant of the feature merge loop: feature texts are distinct and
the seen-text set holds exactly the accumulated texts. -/
def FInv (acc : List ComparisonFeature × List Str) : Prop :=
  (acc.1.map (fun f => f.text)).Nodup ∧
  ∀ t : Str, t ∈ acc.2 ↔ t ∈ acc.1.map (fun f => f.text)

/-
The has_differences flag agrees with distinct-value cardinality (C5).
-/

/-- Phase-one sections hold only empty result lists. -/
def AllNil (sections : Dict (List ComparisonSpecification)) : Prop :=
  ∀ sect l, dget? sections sect = some l → l = []

/-- The invariant of phase two: every emitted specification's
has_differences flag matches the cardinality of its own distinct raw value
strings. -/
def SpecsInv (sections : Dict (List ComparisonSpecification)) : Prop :=
  ∀ sect l cs, dget? sections sect = some l → cs ∈ l →
    (cs.has_differences = true ↔
      1 < (cs.values.map (fun p => p.2.value)).dedup.length)

/-- The ComparisonSpecification the comparator emits for the concrete
24-vs-30 Voltage scenario. -/
def cmpCS : ComparisonSpecification :=
  ComparisonSpecification.mk (str "Voltage") []
    [(str "A", SpecificationValue.mk (some (str "V")) (str "24") (str "24 V")),
     (str "B", SpecificationValue.mk (some (str "V")) (str "30") (str "30 V"))]
    true

/-- The value map the comparator collects for the 24-vs-30 scenario. -/
def cmpValues : Dict SpecificationValue :=
  [(str "A", SpecificationValue.mk (some (str "V")) (str "24") (str "24 V")),
   (str "B", SpecificationValue.mk (some (str "V")) (str "30") (str "30 V"))]

/-
Category replacement across tables (C2): the amended last-contribution
semantics of _process_specification_tables.
-/

/-- The nested parse maps have distinct section keys, and distinct category
keys inside every section. -/
def ParseInv (d : Dict (Dict (Dict PDFSpecification))) : Prop :=
  NodupKeys d ∧ ∀ p ∈ d, NodupKeys p.2

/-- Look a category up in the built section map. -/
def lookupCategory (sections : Dict PDFSection) (sect cat : Str) :
    Option PDFCategory :=
  match dget? sections sect with
  | none => none
  | some s => dget? s.categories cat

/-- The subcategory map one table contributes for a (section, category)
pair, if any. -/
def tableContribution (t : List (List Str)) (sect cat : Str) :
    Option (Dict PDFSpecification) :=
  match dget? (_parse_table_to_specs t) sect with
  | none => none
  | some cs => dget? cs cat

theorem dget?_dset_self {α : Type} (d : Dict α) (k : Str) (v : α) :
    dget? (dset d k v) k = some v := by
  induction d with
  | nil => simp [dset, dget?]
  | cons p d ih =>
    by_cases h : p.1 = k <;> simp [dset, dget?, h, ih]

theorem dget?_dset_ne {α : Type} (d : Dict α) {k k' : Str} (v : α)
    (h : k' ≠ k) : dget? (dset d k v) k' = dget? d k' := by
  have hne : ¬(k = k') := fun hk => h hk.symm
  induction d with
  | nil => simp [dset, dget?, hne]
  | cons p d ih =>
    obtain ⟨pk, pv⟩ := p
    by_cases hp : pk = k
    · subst hp
      simp [dset, dget?, hne]
    · simp only [dset, if_neg hp, dget?]
      by_cases hk : pk = k' <;> simp [hk, ih]

theorem dkeys_dset {α : Type} (d : Dict α) (k : Str) (v : α) :
    dkeys (dset d k v) = if dmem d k then dkeys d else dkeys d ++ [k] := by
  induction d with
  | nil => simp [dset, dkeys, dmem, dget?]
  | cons p d ih =>
    obtain ⟨pk, pv⟩ := p
    by_cases hp : pk = k
    · subst hp
      simp [dset, dkeys, dmem, dget?]
    · have hmem : dmem ((pk, pv) :: d) k = dmem d k := by
        simp [dmem, dget?, hp]
      have hds : dset ((pk, pv) :: d) k v = (pk, pv) :: dset d k v := by
        simp [dset, hp]
      rw [hds, hmem]
      by_cases hm : dmem d k = true
      · rw [if_pos hm] at ih
        rw [if_pos hm]
        simp only [dkeys] at ih ⊢
        simp [ih]
      · rw [if_neg hm] at ih
        rw [if_neg hm]
        simp only [dkeys] at ih ⊢
        simp [ih]

theorem dget?_isSome_of_mem_dkeys {α : Type} {d : Dict α} {a : Str}
    (ha : a ∈ dkeys d) : (dget? d a).isSome := by
  induction d with
  | nil => simp [dkeys] at ha
  | cons p d ih =>
    obtain ⟨pk, pv⟩ := p
    by_cases hp : pk = a
    · simp [dget?, hp]
    · simp only [dkeys, List.map_cons, List.mem_cons] at ha
      rcases ha with ha | ha
      · exact absurd ha.symm hp
      · simp [dget?, hp, ih ha]

theorem nodupKeys_dset {α : Type} {d : Dict α} (k : Str) (v : α)
    (h : NodupKeys d) : NodupKeys (dset d k v) := by
  unfold NodupKeys
  rw [dkeys_dset]
  by_cases hm : dmem d k = true
  · rw [if_pos hm]
    exact h
  · rw [if_neg hm]
    refine List.Nodup.append h (List.nodup_singleton k) ?_
    intro a ha hb
    simp only [List.mem_singleton] at hb
    subst hb
    exact hm (by simpa [dmem] using dget?_isSome_of_mem_dkeys ha)

theorem values_dset {α : Type} {d : Dict α} {k : Str} {v : α} {p : Str × α} :
    p ∈ dset d k v → p = (k, v) ∨ p ∈ d := by
  induction d with
  | nil =>
    intro h
    simpa [dset] using h
  | cons q d ih =>
    intro h
    obtain ⟨qk, qv⟩ := q
    by_cases hq : qk = k
    · subst hq
      simp only [dset, if_pos, List.mem_cons] at h
      rcases h with h | h
      · exact Or.inl h
      · exact Or.inr (List.mem_cons_of_mem _ h)
    · simp only [dset, if_neg hq, List.mem_cons] at h
      rcases h with h | h
      · exact Or.inr (by simp [h])
      · rcases ih h with h2 | h2
        · exact Or.inl h2
        · exact Or.inr (List.mem_cons_of_mem _ h2)

/-
Further dictionary lemmas and concrete fixtures shared by the theorems.
-/

theorem dget?_mem {α : Type} {d : Dict α} {k : Str} {v : α} :
    dget? d k = some v → (k, v) ∈ d := by
  induction d with
  | nil =>
    intro h
    simp [dget?] at h
  | cons p d ih =>
    intro h
    obtain ⟨pk, pv⟩ := p
    by_cases hp : pk = k
    · subst hp
      simp only [dget?, if_pos, Option.some.injEq] at h
      subst h
      exact List.mem_cons_self _ _
    · simp only [dget?, if_neg hp] at h
      exact List.mem_cons_of_mem _ (ih h)

theorem dget?_eq_none_of_not_mem {α : Type} {d : Dict α} {a : Str}
    (h : a ∉ dkeys d) : dget? d a = none := by
  cases hd : dget? d a with
  | none => rfl
  | some v =>
    have hm : (a, v) ∈ d := dget?_mem hd
    have ha : a ∈ dkeys d := List.mem_map_of_mem (fun p : Str × α => p.1) hm
    exact absurd ha h

/-- C7: parsing the table [["Voltage","","V","24"], ["","Max","V","30"]]
yields exactly one category Voltage, placed in the electrical section via
the voltage keyword, with the empty-string subcategory holding value 24
unit V and subcategory Max holding value 30 unit V; the second row's empty
category cell inherits the carried-forward category Voltage. -/
theorem claim_C7 :
    _parse_table_to_specs
      [[str "Voltage", [], str "V", str "24"],
       [[], str "Max", str "V", str "30"]] =
    [(str "electrical specifications",
      [(str "Voltage",
        [([], PDFSpecification.mk (some (str "V")) (str "24")),
         (str "Max", PDFSpecification.mk (some (str "V")) (str "30"))])])] := by
  decide

/-- C10: the empty-string unit is treated as an absent unit:
standardize_unit of the empty string is None, and format_display_value
with an empty or absent unit returns the value unchanged. -/
theorem claim_C10 :
    standardize_unit (some []) = none ∧
    ∀ v : Str, format_display_value v (some []) = v ∧
      format_display_value v none = v := by
  refine ⟨by decide, fun v => ⟨rfl, rfl⟩⟩

/-- C4 counterexample: the category text pull-in (no spaces around the
dash) contains the claimed magnetic keyword pull-in, yet the parser routes
it to the electrical-section default, not to the magnetic section, because
the source's keyword is pull - in with spaces. -/
theorem claim_C4_counterexample :
    get_section_for_category none (str "pull-in") ≠
      str "magnetic specifications" ∧
    get_section_for_category none (str "pull-in") =
      str "electrical specifications" := by
  constructor
  · decide
  · decide

/-- C4 amended: keyword routing as the source implements it: a category
containing an electrical keyword goes to the electrical section; with no
electrical keyword, a category containing one of the magnetic keywords
pull - in (spaces around the dash), test coil or magnetic goes to the
magnetic section; with neither, a physical keyword sends it to the
physical section.  All matches are case-insensitive substring tests on the
lowercased category text. -/
theorem claim_C4_amended (cursect : Option Str) (category : Str) :
    (electricalTerms.any (fun t => strContains (pyLower category) t) = true →
      get_section_for_category cursect category =
        str "electrical specifications") ∧
    (electricalTerms.any (fun t => strContains (pyLower category) t) = false →
     magneticTerms.any (fun t => strContains (pyLower category) t) = true →
      get_section_for_category cursect category =
        str "magnetic specifications") ∧
    (electricalTerms.any (fun t => strContains (pyLower category) t) = false →
     magneticTerms.any (fun t => strContains (pyLower category) t) = false →
     physicalTerms.any (fun t => strContains (pyLower category) t) = true →
      get_section_for_category cursect category =
        str "physical/operational specifications") := by
  refine ⟨?_, ?_, ?_⟩
  · intro h1
    simp only [get_section_for_category, h1, if_true]
    decide
  · intro h1 h2
    simp only [get_section_for_category, h1, h2, if_true, if_false]
    decide
  · intro h1 h2 h3
    simp only [get_section_for_category, h1, h2, h3, if_true, if_false]
    decide

theorem claim_C4_amended_witness :
    get_section_for_category none (str "Test Coil") =
      str "magnetic specifications" :=
  (claim_C4_amended none (str "Test Coil")).2.1 (by decide) (by decide)

/-- C1 counterexample: with exactly one available document (model B's
extraction failed and was dropped), compare_models produces a full
ComparisonResponse over the surviving document; no PreconditionError (or
any error) is raised — indeed no PreconditionError exists in the code. -/
theorem claim_C1_counterexample :
    compare_models [(str "A", voltageContent "24")] [str "A", str "B"] =
    ComparisonResponse.mk [str "A", str "B"]
      [(str "electrical specifications", ComparisonSection.mk
        [(str "Voltage", CompCats.specs
          [ComparisonSpecification.mk (str "Voltage") []
            [(str "A",
              SpecificationValue.mk (some (str "V")) (str "24") (str "24 V"))]
            false])])]
      0 := by decide

/-- C2 counterexample: two tables both contribute the (electrical, Voltage)
pair; the builder's merged section map keeps only the second table's
subcategory map, losing the empty-string subcategory the first table
contributed, instead of the union the claim requires. -/
theorem claim_C2_counterexample :
    _process_specification_tables
      [[[str "Voltage", [], str "V", str "24"]],
       [[str "Voltage", str "Max", str "V", str "30"]]] =
    [(str "electrical specifications",
      PDFSection.mk [(str "Voltage",
        PDFCategory.mk
          [(str "Max", PDFSpecification.mk (some (str "V")) (str "30"))])])] ∧
    (_parse_table_to_specs [[str "Voltage", [], str "V", str "24"]]).length ≠ 0 :=
  by constructor <;> decide

/-
Lemmas about comparison runs in which no requested model has a document,
supporting the amended form of C1.
-/

theorem featureFold_no_models (models : Dict PDFContent) (mns : List Str)
    (ft : Str) :
    ∀ (l : List Str) (acc : List ComparisonFeature × List Str),
    (∀ n ∈ l, dget? models n = none) →
    l.foldl (featureStep models mns ft) acc = acc := by
  intro l
  induction l with
  | nil =>
    intro acc _
    rfl
  | cons n t ih =>
    intro acc hl
    have hn : dget? models n = none := hl n (List.mem_cons_self _ _)
    have hstep : featureStep models mns ft acc n = acc := by
      simp [featureStep, hn]
    simp only [List.foldl_cons, hstep]
    exact ih acc (fun m hm => hl m (List.mem_cons_of_mem _ hm))

theorem combosFold_no_models (models : Dict PDFContent) :
    ∀ (l : List Str)
      (acc : Dict (List ComparisonSpecification) × List (Str × Str × Str)),
    (∀ n ∈ l, dget? models n = none) →
    l.foldl (comboModelStep models) acc = acc := by
  intro l
  induction l with
  | nil =>
    intro acc _
    rfl
  | cons n t ih =>
    intro acc hl
    have hn : dget? models n = none := hl n (List.mem_cons_self _ _)
    have hstep : comboModelStep models acc n = acc := by
      simp [comboModelStep, hn]
    simp only [List.foldl_cons, hstep]
    exact ih acc (fun m hm => hl m (List.mem_cons_of_mem _ hm))

theorem collectCombos_no_models (models : Dict PDFContent) (mns : List Str)
    (hnone : ∀ n ∈ mns, dget? models n = none) :
    collectCombos models mns = ([], []) :=
  combosFold_no_models models mns ([], []) hnone

/-- C1 amended: compare_models never signals a precondition error; when no
requested model has an available document it returns the empty
ComparisonResponse that echoes the requested model numbers with no
sections and zero differences (the requested list itself has length at
least two per the response model's validation). -/
theorem claim_C1_amended (models : Dict PDFContent) (mns : List Str)
    (hlen : 2 ≤ mns.length)
    (hnone : ∀ n ∈ mns, dget? models n = none) :
    compare_models models mns = ComparisonResponse.mk mns [] 0 := by
  have hft : ∀ ft, _process_feature_type models mns ft = [] := by
    intro ft
    unfold _process_feature_type
    rw [featureFold_no_models models mns ft mns ([], []) hnone]
  have hps : _process_specifications models mns = ([], []) := by
    unfold _process_specifications
    rw [show collectCombos models mns = ([], []) from
      collectCombos_no_models models mns hnone]
    rfl
  by_cases hm : models.isEmpty
  · unfold compare_models
    rw [if_pos hm]
  · unfold compare_models
    rw [if_neg hm]
    simp only [_process_features, _process_advantages, hft, hps]
    rfl

theorem claim_C1_amended_witness :
    compare_models [(str "X", voltageContent "24")] [str "A", str "B"] =
    ComparisonResponse.mk [str "A", str "B"] [] 0 :=
  claim_C1_amended [(str "X", voltageContent "24")] [str "A", str "B"]
    (by decide) (by decide)

/-
Deduplication invariant of the feature/advantage merger (C8).
-/

theorem updateFirstFeature_map_text (l : List ComparisonFeature)
    (item name : Str) :
    (updateFirstFeature l item name).map (fun f => f.text) =
      l.map (fun f => f.text) := by
  induction l with
  | nil => rfl
  | cons f t ih =>
    by_cases hf : f.text = item
    · simp [updateFirstFeature, hf]
    · simp [updateFirstFeature, hf, ih]

theorem mergeItems_inv (mns : List Str) (name : Str) :
    ∀ (items : List Str) (acc : List ComparisonFeature × List Str),
    FInv acc → FInv (mergeItems mns name items acc) := by
  intro items
  induction items with
  | nil =>
    intro acc h
    exact h
  | cons item rest ih =>
    intro acc h
    obtain ⟨hnd, hiff⟩ := h
    by_cases hc : acc.2.contains item = true
    · have hm : item ∈ acc.2 := List.elem_iff.mp hc
      have hstep : mergeItems mns name (item :: rest) acc =
          mergeItems mns name rest
            (updateFirstFeature acc.1 item name, acc.2) := by
        simp [mergeItems, hm]
      rw [hstep]
      refine ih _ ⟨?_, ?_⟩
      · simpa [updateFirstFeature_map_text] using hnd
      · intro t
        simpa [updateFirstFeature_map_text] using hiff t
    · have hm' : item ∉ acc.2 := fun hm => hc (List.elem_iff.mpr hm)
      have hstep : mergeItems mns name (item :: rest) acc =
          mergeItems mns name rest
            (acc.1 ++ [ComparisonFeature.mk item
              (mns.foldl (fun d n => dset d n (decide (n = name))) [])],
             item :: acc.2) := by
        simp [mergeItems, hm']
      rw [hstep]
      have hni : item ∉ acc.1.map (fun f => f.text) :=
        fun hmem => hm' ((hiff item).mpr hmem)
      refine ih _ ⟨?_, ?_⟩
      · simp only [List.map_append, List.map_cons, List.map_nil]
        rw [List.nodup_append]
        refine ⟨hnd, List.nodup_singleton _, ?_⟩
        intro a ha hb
        simp only [List.mem_singleton] at hb
        exact hni (hb ▸ ha)
      · intro t
        simp only [List.map_append, List.map_cons, List.map_nil,
          List.mem_append, List.mem_cons, List.mem_singleton,
          List.not_mem_nil, or_false]
        rw [show (t ∈ acc.2) = (t ∈ acc.1.map (fun f => f.text)) from
          propext (hiff t)]
        tauto

theorem featureStep_inv (models : Dict PDFContent) (mns : List Str)
    (ft : Str) (acc : List ComparisonFeature × List Str) (name : Str)
    (h : FInv acc) : FInv (featureStep models mns ft acc name) := by
  unfold featureStep
  split
  · exact h
  · split
    · exact h
    · split
      · exact h
      · split
        · exact h
        · split
          · exact h
          · exact mergeItems_inv mns name _ acc h

theorem featureFold_inv (models : Dict PDFContent) (mns : List Str)
    (ft : Str) :
    ∀ (l : List Str) (acc : List ComparisonFeature × List Str),
    FInv acc → FInv (l.foldl (featureStep models mns ft) acc) := by
  intro l
  induction l with
  | nil =>
    intro acc h
    exact h
  | cons n t ih =>
    intro acc h
    exact ih _ (featureStep_inv models mns ft acc n h)

/-- C8: the feature/advantage merger never emits two entries with the same
text: the texts of the output list are pairwise distinct, so the number of
distinct texts equals the output length. -/
theorem claim_C8 (models : Dict PDFContent) (mns : List Str) (ft : Str) :
    ((_process_feature_type models mns ft).map (fun f => f.text)).Nodup ∧
    ((_process_feature_type models mns ft).map (fun f => f.text)).dedup.length
      = (_process_feature_type models mns ft).length := by
  have h : FInv (mns.foldl (featureStep models mns ft) ([], [])) :=
    featureFold_inv models mns ft mns ([], []) ⟨List.nodup_nil, by simp⟩
  have hnd : ((_process_feature_type models mns ft).map
      (fun f => f.text)).Nodup := h.1
  refine ⟨hnd, ?_⟩
  rw [List.dedup_eq_self.mpr hnd, List.length_map]

/-
Model-map entries outside the requested model numbers are irrelevant (C9).
-/

theorem featureStep_congr (m1 m2 : Dict PDFContent) (mns : List Str)
    (ft : Str) (acc : List ComparisonFeature × List Str) (name : Str)
    (h : dget? m1 name = dget? m2 name) :
    featureStep m1 mns ft acc name = featureStep m2 mns ft acc name := by
  unfold featureStep
  rw [h]

theorem collectValues_congr (m1 m2 : Dict PDFContent) (mns : List Str)
    (sect category specn : Str)
    (h : ∀ n ∈ mns, dget? m1 n = dget? m2 n) :
    collectValues m1 mns sect category specn =
      collectValues m2 mns sect category specn := by
  unfold collectValues
  refine List.foldl_ext _ _ _ ?_
  intro vals n hn
  rw [h n hn]

theorem collectCombos_congr (m1 m2 : Dict PDFContent) (mns : List Str)
    (h : ∀ n ∈ mns, dget? m1 n = dget? m2 n) :
    collectCombos m1 mns = collectCombos m2 mns := by
  unfold collectCombos
  refine List.foldl_ext _ _ _ ?_
  intro acc n hn
  unfold comboModelStep
  rw [h n hn]

theorem specStep_congr (m1 m2 : Dict PDFContent) (mns : List Str)
    (acc : Dict (List ComparisonSpecification) × List Difference)
    (combo : Str × Str × Str)
    (h : ∀ n ∈ mns, dget? m1 n = dget? m2 n) :
    specStep m1 mns acc combo = specStep m2 mns acc combo := by
  unfold specStep
  rw [collectValues_congr m1 m2 mns combo.1 combo.2.1 combo.2.2 h]

/-- C9: entries of the models map whose key is not among the requested
model numbers have no effect: on two model maps that agree (as lookup
maps) on every requested model number, the feature merger and the
specification/difference processor produce identical results. -/
theorem claim_C9 (m1 m2 : Dict PDFContent) (mns : List Str) (ft : Str)
    (h : ∀ n ∈ mns, dget? m1 n = dget? m2 n) :
    _process_feature_type m1 mns ft = _process_feature_type m2 mns ft ∧
    _process_specifications m1 mns = _process_specifications m2 mns := by
  constructor
  · unfold _process_feature_type
    rw [List.foldl_ext (featureStep m1 mns ft) (featureStep m2 mns ft)
      ([], []) (fun acc n hn => featureStep_congr m1 m2 mns ft acc n (h n hn))]
  · unfold _process_specifications
    rw [collectCombos_congr m1 m2 mns h]
    rw [List.foldl_ext (specStep m1 mns) (specStep m2 mns) _
      (fun acc combo _ => specStep_congr m1 m2 mns acc combo h)]

theorem claim_C9_witness :
    (_process_feature_type [] [str "A"] (str "features") =
      _process_feature_type [(str "X", voltageContent "24")] [str "A"]
        (str "features")) ∧
    _process_specifications [] [str "A"] =
      _process_specifications [(str "X", voltageContent "24")] [str "A"] :=
  claim_C9 [] [(str "X", voltageContent "24")] [str "A"] (str "features")
    (by decide)

theorem allNil_dset_nil {sections : Dict (List ComparisonSpecification)}
    (k : Str) (h : AllNil sections) : AllNil (dset sections k []) := by
  intro sect l hget
  by_cases hs : sect = k
  · subst hs
    rw [dget?_dset_self] at hget
    injection hget with hget
    exact hget.symm
  · rw [dget?_dset_ne _ _ hs] at hget
    exact h sect l hget

theorem comboSectionStep_allNil
    (acc : Dict (List ComparisonSpecification) × List (Str × Str × Str))
    (sp : Str × PDFSection) (h : AllNil acc.1) :
    AllNil (comboSectionStep acc sp).1 := by
  unfold comboSectionStep
  by_cases hsk : sp.1 = str "Features_And_Advantages" ∨ sp.1 = str "Diagram"
  · rw [if_pos hsk]
    exact h
  · rw [if_neg hsk]
    show AllNil (if !(dmem acc.1 sp.1) then dset acc.1 sp.1 [] else acc.1)
    by_cases hm : (!(dmem acc.1 sp.1)) = true
    · rw [if_pos hm]
      exact allNil_dset_nil sp.1 h
    · rw [if_neg hm]
      exact h

theorem comboSectionFold_allNil :
    ∀ (l : List (Str × PDFSection))
      (acc : Dict (List ComparisonSpecification) × List (Str × Str × Str)),
    AllNil acc.1 → AllNil (l.foldl comboSectionStep acc).1 := by
  intro l
  induction l with
  | nil =>
    intro acc h
    exact h
  | cons sp t ih =>
    intro acc h
    exact ih _ (comboSectionStep_allNil acc sp h)

theorem comboModelStep_allNil (models : Dict PDFContent)
    (acc : Dict (List ComparisonSpecification) × List (Str × Str × Str))
    (name : Str) (h : AllNil acc.1) :
    AllNil (comboModelStep models acc name).1 := by
  unfold comboModelStep
  cases dget? models name with
  | none => exact h
  | some model => exact comboSectionFold_allNil model.sections acc h

theorem collectCombos_allNil (models : Dict PDFContent) (mns : List Str) :
    AllNil (collectCombos models mns).1 := by
  unfold collectCombos
  have : ∀ (l : List Str)
      (acc : Dict (List ComparisonSpecification) × List (Str × Str × Str)),
      AllNil acc.1 → AllNil (l.foldl (comboModelStep models) acc).1 := by
    intro l
    induction l with
    | nil =>
      intro acc h
      exact h
    | cons n t ih =>
      intro acc h
      exact ih _ (comboModelStep_allNil models acc n h)
  refine this mns ([], []) ?_
  intro sect l hget
  simp [dget?] at hget

theorem allNil_specsInv {sections : Dict (List ComparisonSpecification)}
    (h : AllNil sections) : SpecsInv sections := by
  intro sect l cs hget hcs
  rw [h sect l hget] at hcs
  exact absurd hcs (List.not_mem_nil cs)

theorem specStep_fst (models : Dict PDFContent) (mns : List Str)
    (acc : Dict (List ComparisonSpecification) × List Difference)
    (combo : Str × Str × Str) :
    (specStep models mns acc combo).1 =
    (if (collectValues models mns combo.1 combo.2.1 combo.2.2).isEmpty
     then acc.1
     else dset acc.1 combo.1 (dgetD acc.1 combo.1 [] ++
       [ComparisonSpecification.mk combo.2.1 combo.2.2
         (collectValues models mns combo.1 combo.2.1 combo.2.2)
         (decide (1 < ((collectValues models mns combo.1 combo.2.1
            combo.2.2).map (fun p => p.2.value)).dedup.length))])) := by
  unfold specStep
  by_cases he :
      (collectValues models mns combo.1 combo.2.1 combo.2.2).isEmpty = true
  · rw [if_pos he, if_pos he]
  · rw [if_neg he, if_neg he]

theorem specStep_specsInv (models : Dict PDFContent) (mns : List Str)
    (acc : Dict (List ComparisonSpecification) × List Difference)
    (combo : Str × Str × Str) (h : SpecsInv acc.1) :
    SpecsInv (specStep models mns acc combo).1 := by
  rw [specStep_fst]
  by_cases he :
      (collectValues models mns combo.1 combo.2.1 combo.2.2).isEmpty = true
  · rw [if_pos he]
    exact h
  · rw [if_neg he]
    intro sect l cs hget hcs
    by_cases hs : sect = combo.1
    · subst hs
      rw [dget?_dset_self] at hget
      injection hget with hget
      rw [← hget] at hcs
      rcases List.mem_append.mp hcs with hcs | hcs
      · cases hold : dget? acc.1 combo.1 with
        | none =>
          rw [dgetD, hold] at hcs
          exact absurd hcs (List.not_mem_nil cs)
        | some old =>
          rw [dgetD, hold] at hcs
          exact h combo.1 old cs hold hcs
      · simp only [List.mem_singleton] at hcs
        subst hcs
        simp [decide_eq_true_iff]
    · rw [dget?_dset_ne _ _ hs] at hget
      exact h sect l cs hget hcs

theorem specFold_specsInv (models : Dict PDFContent) (mns : List Str) :
    ∀ (combos : List (Str × Str × Str))
      (acc : Dict (List ComparisonSpecification) × List Difference),
    SpecsInv acc.1 →
    SpecsInv (combos.foldl (specStep models mns) acc).1 := by
  intro combos
  induction combos with
  | nil =>
    intro acc h
    exact h
  | cons c t ih =>
    intro acc h
    exact ih _ (specStep_specsInv models mns acc c h)

/-- C5: for every ComparisonSpecification emitted by the comparator, the
has_differences flag is true exactly when the set of distinct raw value
strings collected from the contributing models has more than one element. -/
theorem claim_C5 (models : Dict PDFContent) (mns : List Str) (sect : Str)
    (l : List ComparisonSpecification) (cs : ComparisonSpecification)
    (hget : dget? (_process_specifications models mns).1 sect = some l)
    (hcs : cs ∈ l) :
    cs.has_differences = true ↔
      1 < (cs.values.map (fun p => p.2.value)).toFinset.card := by
  rw [List.card_toFinset]
  have hinv : SpecsInv (_process_specifications models mns).1 := by
    unfold _process_specifications
    exact specFold_specsInv models mns (collectCombos models mns).2
      ((collectCombos models mns).1, [])
      (allNil_specsInv (collectCombos_allNil models mns))
  exact hinv sect l cs hget hcs

theorem claim_C5_witness :
    cmpCS.has_differences = true ↔
    1 < ((cmpCS.values.map (fun p => p.2.value)).toFinset.card) :=
  claim_C5 cmpModels cmpMns (str "electrical specifications") [cmpCS] cmpCS
    (by decide) (by decide)

/-
Numeric extreme selection and difference description (C3).
-/

theorem Dec.toRat_nonneg (d : Dec) : 0 ≤ d.toRat := by
  unfold Dec.toRat
  positivity

theorem Dec.blt_iff {a b : Dec} : Dec.blt a b = true ↔ a.toRat < b.toRat := by
  unfold Dec.blt Dec.toRat
  rw [div_lt_div_iff₀ (by positivity) (by positivity)]
  rw [decide_eq_true_iff]
  constructor
  · intro h
    exact_mod_cast h
  · intro h
    exact_mod_cast h

theorem Dec.blt_false_iff {a b : Dec} :
    Dec.blt a b = false ↔ b.toRat ≤ a.toRat := by
  rw [← not_lt, ← Dec.blt_iff]
  cases Dec.blt a b <;> simp

theorem pyMaxBy_mem {α : Type} (f : α → Dec) :
    ∀ (l : List α) (a : α), pyMaxBy f a l = a ∨ pyMaxBy f a l ∈ l := by
  intro l
  induction l with
  | nil =>
    intro a
    exact Or.inl rfl
  | cons b t ih =>
    intro a
    have hstep : pyMaxBy f a (b :: t) =
        pyMaxBy f (if Dec.blt (f a) (f b) then b else a) t := rfl
    rw [hstep]
    by_cases hc : Dec.blt (f a) (f b) = true
    · rw [if_pos hc]
      rcases ih b with h | h
      · exact Or.inr (by simp [h])
      · exact Or.inr (List.mem_cons_of_mem _ h)
    · rw [if_neg hc]
      rcases ih a with h | h
      · exact Or.inl h
      · exact Or.inr (List.mem_cons_of_mem _ h)

theorem pyMaxBy_ge {α : Type} (f : α → Dec) :
    ∀ (l : List α) (a x : α), (x = a ∨ x ∈ l) →
    (f x).toRat ≤ (f (pyMaxBy f a l)).toRat := by
  intro l
  induction l with
  | nil =>
    intro a x hx
    rcases hx with hx | hx
    · subst hx
      exact le_refl _
    · exact absurd hx (List.not_mem_nil x)
  | cons b t ih =>
    intro a x hx
    show (f x).toRat ≤ (f (pyMaxBy f (if Dec.blt (f a) (f b) then b else a) t)).toRat
    have hca : (f a).toRat ≤
        (f (if Dec.blt (f a) (f b) then b else a)).toRat := by
      by_cases hc : Dec.blt (f a) (f b) = true
      · rw [if_pos hc]
        exact le_of_lt (Dec.blt_iff.mp hc)
      · rw [if_neg hc]
    have hcb : (f b).toRat ≤
        (f (if Dec.blt (f a) (f b) then b else a)).toRat := by
      by_cases hc : Dec.blt (f a) (f b) = true
      · rw [if_pos hc]
      · rw [if_neg hc]
        exact Dec.blt_false_iff.mp (Bool.not_eq_true _ ▸ hc)
    have hsel : (f (if Dec.blt (f a) (f b) then b else a)).toRat ≤
        (f (pyMaxBy f (if Dec.blt (f a) (f b) then b else a) t)).toRat :=
      ih _ _ (Or.inl rfl)
    rcases hx with hx | hx
    · subst hx
      exact le_trans hca hsel
    · rcases List.mem_cons.mp hx with hx | hx
      · subst hx
        exact le_trans hcb hsel
      · exact ih _ x (Or.inr hx)

theorem pyMaxD_mem :
    ∀ (l : List Dec) (a : Dec), pyMaxD a l = a ∨ pyMaxD a l ∈ l := by
  intro l
  induction l with
  | nil =>
    intro a
    exact Or.inl rfl
  | cons b t ih =>
    intro a
    have hstep : pyMaxD a (b :: t) =
        pyMaxD (if Dec.blt a b then b else a) t := rfl
    rw [hstep]
    by_cases hc : Dec.blt a b = true
    · rw [if_pos hc]
      rcases ih b with h | h
      · exact Or.inr (by simp [h])
      · exact Or.inr (List.mem_cons_of_mem _ h)
    · rw [if_neg hc]
      rcases ih a with h | h
      · exact Or.inl h
      · exact Or.inr (List.mem_cons_of_mem _ h)

theorem pyMaxD_ge :
    ∀ (l : List Dec) (a x : Dec), (x = a ∨ x ∈ l) →
    x.toRat ≤ (pyMaxD a l).toRat := by
  intro l
  induction l with
  | nil =>
    intro a x hx
    rcases hx with hx | hx
    · subst hx
      exact le_refl _
    · exact absurd hx (List.not_mem_nil x)
  | cons b t ih =>
    intro a x hx
    show x.toRat ≤ (pyMaxD (if Dec.blt a b then b else a) t).toRat
    have hca : a.toRat ≤ (if Dec.blt a b then b else a).toRat := by
      by_cases hc : Dec.blt a b = true
      · rw [if_pos hc]
        exact le_of_lt (Dec.blt_iff.mp hc)
      · rw [if_neg hc]
    have hcb : b.toRat ≤ (if Dec.blt a b then b else a).toRat := by
      by_cases hc : Dec.blt a b = true
      · rw [if_pos hc]
      · rw [if_neg hc]
        exact Dec.blt_false_iff.mp (Bool.not_eq_true _ ▸ hc)
    have hsel : (if Dec.blt a b then b else a).toRat ≤
        (pyMaxD (if Dec.blt a b then b else a) t).toRat :=
      ih _ _ (Or.inl rfl)
    rcases hx with hx | hx
    · subst hx
      exact le_trans hca hsel
    · rcases List.mem_cons.mp hx with hx | hx
      · subst hx
        exact le_trans hcb hsel
      · exact ih _ x (Or.inr hx)

theorem pyMinD_mem :
    ∀ (l : List Dec) (a : Dec), pyMinD a l = a ∨ pyMinD a l ∈ l := by
  intro l
  induction l with
  | nil =>
    intro a
    exact Or.inl rfl
  | cons b t ih =>
    intro a
    have hstep : pyMinD a (b :: t) =
        pyMinD (if Dec.blt b a then b else a) t := rfl
    rw [hstep]
    by_cases hc : Dec.blt b a = true
    · rw [if_pos hc]
      rcases ih b with h | h
      · exact Or.inr (by simp [h])
      · exact Or.inr (List.mem_cons_of_mem _ h)
    · rw [if_neg hc]
      rcases ih a with h | h
      · exact Or.inl h
      · exact Or.inr (List.mem_cons_of_mem _ h)

theorem pyMinD_le :
    ∀ (l : List Dec) (a x : Dec), (x = a ∨ x ∈ l) →
    (pyMinD a l).toRat ≤ x.toRat := by
  intro l
  induction l with
  | nil =>
    intro a x hx
    rcases hx with hx | hx
    · subst hx
      exact le_refl _
    · exact absurd hx (List.not_mem_nil x)
  | cons b t ih =>
    intro a x hx
    show (pyMinD (if Dec.blt b a then b else a) t).toRat ≤ x.toRat
    have hca : (if Dec.blt b a then b else a).toRat ≤ a.toRat := by
      by_cases hc : Dec.blt b a = true
      · rw [if_pos hc]
        exact le_of_lt (Dec.blt_iff.mp hc)
      · rw [if_neg hc]
    have hcb : (if Dec.blt b a then b else a).toRat ≤ b.toRat := by
      by_cases hc : Dec.blt b a = true
      · rw [if_pos hc]
      · rw [if_neg hc]
        exact Dec.blt_false_iff.mp (Bool.not_eq_true _ ▸ hc)
    have hsel : (pyMinD (if Dec.blt b a then b else a) t).toRat ≤
        (if Dec.blt b a then b else a).toRat :=
      ih _ _ (Or.inl rfl)
    rcases hx with hx | hx
    · subst hx
      exact le_trans hsel hca
    · rcases List.mem_cons.mp hx with hx | hx
      · subst hx
        exact le_trans hsel hcb
      · exact ih _ x (Or.inr hx)

/-- C3: when every collected value passes the strict numeric test, the
emitted Difference names as extreme a model whose value has maximal
absolute numeric value among the collected values, and its description is
Value of max vs min over the coerced numeric values; in particular the
24-vs-30 Voltage comparison yields exactly one Difference naming the
30-value model with description Value of 30.0 vs 24.0. -/
theorem claim_C3 (sect category specn : Str)
    (values : Dict SpecificationValue) (hne : values ≠ [])
    (hnum : ∀ p ∈ values, isStrictNumeric p.2.value = true) :
    ((∃ p ∈ values,
       p.1 = (buildDifference sect category specn values).model ∧
       ∀ q ∈ values,
         |(parseDec q.2.value).toRat| ≤ |(parseDec p.2.value).toRat|) ∧
     (∃ qmax qmin : Dec,
       (∃ p ∈ values, parseDec p.2.value = qmax) ∧
       (∃ p ∈ values, parseDec p.2.value = qmin) ∧
       (∀ p ∈ values, (parseDec p.2.value).toRat ≤ qmax.toRat) ∧
       (∀ p ∈ values, qmin.toRat ≤ (parseDec p.2.value).toRat) ∧
       (buildDifference sect category specn values).difference =
         str "Value of " ++ pyFloatStr qmax ++ str " vs " ++
           pyFloatStr qmin)) ∧
    (_process_specifications cmpModels cmpMns).2 =
      [Difference.mk (str "B") (str "electrical specifications")
        (str "Voltage") [] (str "Value of 30.0 vs 24.0") (some (str "V"))
        [(str "A", str "24"), (str "B", str "30")]] := by
  obtain ⟨v0, rest, rfl⟩ : ∃ v0 rest, values = v0 :: rest := by
    cases values with
    | nil => exact absurd rfl hne
    | cons v0 rest => exact ⟨v0, rest, rfl⟩
  have hall : (v0 :: rest).all (fun p => isStrictNumeric p.2.value) = true := by
    rw [List.all_eq_true]
    intro p hp
    exact hnum p hp
  have hbd : buildDifference sect category specn (v0 :: rest) =
      Difference.mk (pyMaxBy (fun p => parseDec p.2.value) v0 rest).1
        sect category specn
        (str "Value of " ++
          pyFloatStr (pyMaxD (parseDec v0.2.value)
            (rest.map (fun p => parseDec p.2.value))) ++
          str " vs " ++
          pyFloatStr (pyMinD (parseDec v0.2.value)
            (rest.map (fun p => parseDec p.2.value))))
        v0.2.unit ((v0 :: rest).map (fun p => (p.1, p.2.value))) := by
    simp only [buildDifference, hall, if_true]
  refine ⟨⟨?_, ?_⟩, by decide⟩
  · refine ⟨pyMaxBy (fun p => parseDec p.2.value) v0 rest, ?_, ?_, ?_⟩
    · rcases pyMaxBy_mem (fun p : Str × SpecificationValue =>
          parseDec p.2.value) rest v0 with h | h
      · rw [h]
        exact List.mem_cons_self _ _
      · exact List.mem_cons_of_mem _ h
    · rw [hbd]
    · intro q hq
      rw [abs_of_nonneg (Dec.toRat_nonneg _), abs_of_nonneg (Dec.toRat_nonneg _)]
      rcases List.mem_cons.mp hq with hq | hq
      · have h := pyMaxBy_ge (fun p : Str × SpecificationValue =>
          parseDec p.2.value) rest v0 q (Or.inl hq)
        exact h
      · have h := pyMaxBy_ge (fun p : Str × SpecificationValue =>
          parseDec p.2.value) rest v0 q (Or.inr hq)
        exact h
  · refine ⟨pyMaxD (parseDec v0.2.value)
        (rest.map (fun p => parseDec p.2.value)),
      pyMinD (parseDec v0.2.value)
        (rest.map (fun p => parseDec p.2.value)), ?_, ?_, ?_, ?_, ?_⟩
    · rcases pyMaxD_mem (rest.map (fun p => parseDec p.2.value))
          (parseDec v0.2.value) with h | h
      · exact ⟨v0, List.mem_cons_self _ _, h.symm⟩
      · obtain ⟨p, hp, hpe⟩ := List.mem_map.mp h
        exact ⟨p, List.mem_cons_of_mem _ hp, hpe⟩
    · rcases pyMinD_mem (rest.map (fun p => parseDec p.2.value))
          (parseDec v0.2.value) with h | h
      · exact ⟨v0, List.mem_cons_self _ _, h.symm⟩
      · obtain ⟨p, hp, hpe⟩ := List.mem_map.mp h
        exact ⟨p, List.mem_cons_of_mem _ hp, hpe⟩
    · intro p hp
      rcases List.mem_cons.mp hp with hp | hp
      · exact pyMaxD_ge _ _ _ (Or.inl (by rw [hp]))
      · exact pyMaxD_ge _ _ _ (Or.inr (List.mem_map_of_mem _ hp))
    · intro p hp
      rcases List.mem_cons.mp hp with hp | hp
      · exact pyMinD_le _ _ _ (Or.inl (by rw [hp]))
      · exact pyMinD_le _ _ _ (Or.inr (List.mem_map_of_mem _ hp))
    · rw [hbd]

theorem claim_C3_witness :
    ∃ p ∈ cmpValues,
      p.1 = (buildDifference (str "electrical specifications")
        (str "Voltage") [] cmpValues).model ∧
      ∀ q ∈ cmpValues,
        |(parseDec q.2.value).toRat| ≤ |(parseDec p.2.value).toRat| :=
  (claim_C3 (str "electrical specifications") (str "Voltage") [] cmpValues
    (by decide) (by decide)).1.1

/-
String lemmas and table facts for the idempotence of standardize_unit (C6).
-/

theorem pySplitOnce_not_mem {c : Char} :
    ∀ {l : Str}, c ∉ l → pySplitOnce l c = (l, none) := by
  intro l
  induction l with
  | nil =>
    intro _
    rfl
  | cons a t ih =>
    intro h
    have ha : ¬(a = c) := fun hac => h (hac ▸ List.mem_cons_self a t)
    have ht : c ∉ t := fun hct => h (List.mem_cons_of_mem _ hct)
    simp [pySplitOnce, ha, ih ht]

theorem pySplitOnce_append {c : Char} :
    ∀ (l1 l2 : Str), c ∉ l1 →
    pySplitOnce (l1 ++ c :: l2) c = (l1, some l2) := by
  intro l1
  induction l1 with
  | nil =>
    intro l2 _
    simp [pySplitOnce]
  | cons a t ih =>
    intro l2 h
    have ha : ¬(a = c) := fun hac => h (hac ▸ List.mem_cons_self a t)
    have ht : c ∉ t := fun hct => h (List.mem_cons_of_mem _ hct)
    simp [pySplitOnce, ha, ih l2 ht]

theorem dropWhile_idem (p : Char → Bool) (l : Str) :
    (l.dropWhile p).dropWhile p = l.dropWhile p := by
  induction l with
  | nil => rfl
  | cons a t ih =>
    by_cases hp : p a = true
    · simp [List.dropWhile_cons, hp, ih]
    · simp [List.dropWhile_cons, hp]

theorem dropWhile_suffix (p : Char → Bool) (l : Str) :
    ∃ t, l = t ++ l.dropWhile p := by
  induction l with
  | nil => exact ⟨[], rfl⟩
  | cons a t ih =>
    by_cases hp : p a = true
    · obtain ⟨u, hu⟩ := ih
      refine ⟨a :: u, ?_⟩
      rw [List.dropWhile_cons, if_pos hp, List.cons_append, ← hu]
    · exact ⟨[], by rw [List.dropWhile_cons, if_neg hp, List.nil_append]⟩

theorem head_dropWhile_false (p : Char → Bool) :
    ∀ (l : Str) {a : Char} {t : Str},
    l.dropWhile p = a :: t → p a = false := by
  intro l
  induction l with
  | nil =>
    intro a t h
    simp [List.dropWhile] at h
  | cons b u ih =>
    intro a t h
    by_cases hp : p b = true
    · rw [List.dropWhile_cons, if_pos hp] at h
      exact ih h
    · rw [List.dropWhile_cons, if_neg hp] at h
      injection h with h1 _
      subst h1
      simp only [Bool.not_eq_true] at hp
      exact hp

theorem pyStrip_cons_ws {c : Char} (hc : pyIsWs c = true) (l : Str) :
    pyStrip (c :: l) = pyStrip l := by
  unfold pyStrip
  rw [List.dropWhile_cons, if_pos hc]

theorem pyStrip_append_ws {c : Char} (hc : pyIsWs c = true) (l : Str) :
    pyStrip (l ++ [c]) = pyStrip l := by
  unfold pyStrip
  rw [List.dropWhile_append]
  by_cases hh : (l.dropWhile pyIsWs).isEmpty = true
  · rw [if_pos hh]
    have h2 : l.dropWhile pyIsWs = [] := List.isEmpty_iff.mp hh
    rw [h2]
    have h1 : List.dropWhile pyIsWs [c] = ([] : Str) := by
      rw [List.dropWhile_cons, if_pos hc]
      rfl
    rw [h1]
  · rw [if_neg hh]
    rw [List.reverse_append]
    simp only [List.reverse_cons, List.reverse_nil, List.nil_append,
      List.singleton_append]
    rw [List.dropWhile_cons, if_pos hc]

theorem pyStrip_idem (l : Str) : pyStrip (pyStrip l) = pyStrip l := by
  have key : ∀ m : Str, m.dropWhile pyIsWs = m →
      pyStrip m = (m.reverse.dropWhile pyIsWs).reverse := by
    intro m hm
    unfold pyStrip
    rw [hm]
  set m := l.dropWhile pyIsWs with hm
  set w := m.reverse.dropWhile pyIsWs with hw
  have hstrip : pyStrip l = w.reverse := rfl
  rw [hstrip]
  have hwrev : w.reverse.dropWhile pyIsWs = w.reverse := by
    cases hwr : w.reverse with
    | nil => rfl
    | cons a t =>
      obtain ⟨st, hst⟩ := dropWhile_suffix pyIsWs m.reverse
      have hm2 : m = w.reverse ++ st.reverse := by
        rw [← List.reverse_reverse m]
        rw [show m.reverse = st ++ w from hst]
        rw [List.reverse_append]
      have hmi : m.dropWhile pyIsWs = m := by
        rw [hm]
        exact dropWhile_idem _ _
      have hcons : m.dropWhile pyIsWs = a :: (t ++ st.reverse) := by
        rw [hmi, hm2, hwr, List.cons_append]
      have hpa : pyIsWs a = false := head_dropWhile_false pyIsWs m hcons
      rw [List.dropWhile_cons, if_neg (by rw [hpa]; exact Bool.false_ne_true)]
  rw [key w.reverse hwrev]
  rw [List.reverse_reverse]
  rw [hw]
  rw [dropWhile_idem]

theorem standardDisplayFacts :
    STANDARD_UNITS.all (fun e =>
      (!e.2.display.contains '-') &&
      (!e.2.display.isEmpty) &&
      (pyStrip e.2.display == e.2.display) &&
      (standardize_unit (some e.2.display) == some e.2.display) &&
      (match lookupStandard e.2.display with
       | some std => std.display == e.2.display
       | none => true)) = true := by decide

theorem lookupStandard_mem {b : Str} {std : UnitStandard}
    (h : lookupStandard b = some std) : ∃ e ∈ STANDARD_UNITS, e.2 = std := by
  unfold lookupStandard at h
  cases h1 : dget? STANDARD_UNITS b with
  | some s =>
    rw [h1] at h
    injection h with h
    exact ⟨_, dget?_mem h1, h⟩
  | none =>
    rw [h1] at h
    cases h2 : dget? STANDARD_UNITS (pyLower b) with
    | some s =>
      rw [h2] at h
      injection h with h
      exact ⟨_, dget?_mem h2, h⟩
    | none =>
      rw [h2] at h
      cases h3 : dget? STANDARD_UNITS (pyUpper b) with
      | some s =>
        rw [h3] at h
        injection h with h
        exact ⟨_, dget?_mem h3, h⟩
      | none =>
        rw [h3] at h
        cases h4 : dget? STANDARD_UNITS (pyCapitalize b) with
        | some s =>
          rw [h4] at h
          injection h with h
          exact ⟨_, dget?_mem h4, h⟩
        | none =>
          rw [h4] at h
          exact ⟨_, dget?_mem h, rfl⟩

theorem display_facts {std : UnitStandard}
    (h : ∃ e ∈ STANDARD_UNITS, e.2 = std) :
    std.display.contains '-' = false ∧ std.display.isEmpty = false ∧
    pyStrip std.display = std.display ∧
    standardize_unit (some std.display) = some std.display ∧
    ∀ std', lookupStandard std.display = some std' →
      std'.display = std.display := by
  obtain ⟨e, he, hse⟩ := h
  have hall := standardDisplayFacts
  rw [List.all_eq_true] at hall
  have hf := hall e he
  rw [← hse]
  simp only [Bool.and_eq_true, beq_iff_eq, Bool.not_eq_true'] at hf
  obtain ⟨⟨⟨⟨f1, f2⟩, f3⟩, f4⟩, f5⟩ := hf
  refine ⟨f1, f2, f3, f4, ?_⟩
  intro std' hl
  rw [hl] at f5
  exact beq_iff_eq.mp f5

theorem standardize_unit_eval (x : Str) (hne : x.isEmpty = false)
    (std : UnitStandard)
    (hstd : lookupStandard (pyStrip (pyStrip (pySplitOnce x '-').1)) =
      some std) :
    standardize_unit (some x) =
      match (pySplitOnce x '-').2.map (fun s => pyStrip (pyStrip s)) with
      | none => some std.display
      | some sfx =>
        if sfx.isEmpty then some std.display
        else if stdSuffixes.contains (pyLower sfx) then
          some (std.display ++ str " - " ++ (pyLower sfx).take 3)
        else some (std.display ++ str " - " ++ sfx) := by
  unfold standardize_unit
  simp only [pyFalsyOptStr, hne, Bool.false_eq_true, if_false, Option.getD_some,
    hstd]
  cases (pySplitOnce x '-').2.map (fun s => pyStrip (pyStrip s)) <;> rfl

theorem standardize_second (std : UnitStandard)
    (hmem : ∃ e ∈ STANDARD_UNITS, e.2 = std) (X : Str)
    (hXne : X.isEmpty = false) (hXstrip : pyStrip X = X)
    (hXsfx : stdSuffixes.contains (pyLower X) = false) :
    standardize_unit (some (std.display ++ str " - " ++ X)) =
      some (std.display ++ str " - " ++ X) := by
  obtain ⟨fdash, _, fstrip, _, fround⟩ := display_facts hmem
  have hdata : str " - " = [' ', '-', ' '] := rfl
  have hconcat : std.display ++ str " - " ++ X =
      (std.display ++ [' ']) ++ '-' :: (' ' :: X) := by
    rw [hdata]
    simp [List.append_assoc]
  have hyne : (std.display ++ str " - " ++ X).isEmpty = false := by
    rw [hconcat]
    cases hD : std.display ++ [' '] with
    | nil => rfl
    | cons a t => rfl
  have hdnm : '-' ∉ std.display ++ [' '] := by
    intro hmm
    rcases List.mem_append.mp hmm with hmm | hmm
    · have hc : std.display.contains '-' = true := List.elem_iff.mpr hmm
      rw [fdash] at hc
      cases hc
    · simp at hmm
  have hsplit : pySplitOnce (std.display ++ str " - " ++ X) '-' =
      (std.display ++ [' '], some (' ' :: X)) := by
    rw [hconcat]
    exact pySplitOnce_append _ _ hdnm
  have hbase : pyStrip (pyStrip
      (pySplitOnce (std.display ++ str " - " ++ X) '-').1) = std.display := by
    rw [hsplit]
    show pyStrip (pyStrip (std.display ++ [' '])) = std.display
    rw [pyStrip_append_ws (by decide), fstrip, fstrip]
  have hsfx2 : pyStrip (pyStrip (' ' :: X)) = X := by
    rw [pyStrip_cons_ws (by decide), hXstrip, hXstrip]
  cases hls : lookupStandard std.display with
  | none =>
    unfold standardize_unit
    simp only [pyFalsyOptStr, hyne, Bool.false_eq_true, if_false,
      Option.getD_some]
    rw [hbase, hls]
  | some std' =>
    have hstd' : std'.display = std.display := fround std' hls
    have heval := standardize_unit_eval (std.display ++ str " - " ++ X) hyne
      std' (by rw [hbase]; exact hls)
    rw [hsplit] at heval
    simp only [Option.map_some'] at heval
    rw [hsfx2] at heval
    rw [if_neg (by rw [hXne]; exact Bool.false_ne_true)] at heval
    rw [if_neg (by rw [hXsfx]; exact Bool.false_ne_true)] at heval
    rw [heval, hstd']

/-- C6: for every raw unit string whose base unit (text before the first
dash, stripped) matches the canonical unit table under the five case
variations the source tries, standardize_unit is idempotent: applying it
to its own output returns that output unchanged. -/
theorem claim_C6 (x : Str)
    (hmatch : (lookupStandard (pyStrip (pyStrip (pySplitOnce x '-').1))).isSome
      = true) :
    ∃ y : Str, standardize_unit (some x) = some y ∧
      standardize_unit (some y) = some y := by
  obtain ⟨std, hstd⟩ := Option.isSome_iff_exists.mp hmatch
  have hmem : ∃ e ∈ STANDARD_UNITS, e.2 = std := lookupStandard_mem hstd
  obtain ⟨_, _, _, fself, _⟩ := display_facts hmem
  have hxne : x.isEmpty = false := by
    cases hx : x.isEmpty
    · rfl
    · have hxe : x = [] := List.isEmpty_iff.mp hx
      rw [hxe] at hstd
      rw [show lookupStandard (pyStrip (pyStrip (pySplitOnce [] '-').1)) =
        none from by decide] at hstd
      cases hstd
  have heval := standardize_unit_eval x hxne std hstd
  cases hsfx : (pySplitOnce x '-').2.map (fun s => pyStrip (pyStrip s)) with
  | none =>
    rw [hsfx] at heval
    exact ⟨std.display, heval, fself⟩
  | some sfx =>
    rw [hsfx] at heval
    have heval2 : standardize_unit (some x) =
        (if sfx.isEmpty = true then some std.display
         else if stdSuffixes.contains (pyLower sfx) = true then
           some (std.display ++ str " - " ++ (pyLower sfx).take 3)
         else some (std.display ++ str " - " ++ sfx)) := heval
    have hsfx_strip : pyStrip sfx = sfx := by
      obtain ⟨s0, _, hs0e⟩ := Option.map_eq_some'.mp hsfx
      rw [← hs0e]
      exact pyStrip_idem (pyStrip s0)
    by_cases hemp : sfx.isEmpty = true
    · rw [if_pos hemp] at heval2
      exact ⟨std.display, heval2, fself⟩
    · rw [if_neg hemp] at heval2
      by_cases hin : stdSuffixes.contains (pyLower sfx) = true
      · rw [if_pos hin] at heval2
        have hmem4 : pyLower sfx ∈ stdSuffixes := List.elem_iff.mp hin
        have habb : (pyLower sfx).take 3 = str "max" ∨
            (pyLower sfx).take 3 = str "min" ∨
            (pyLower sfx).take 3 = str "nom" ∨
            (pyLower sfx).take 3 = str "typ" := by
          simp only [stdSuffixes, List.mem_cons, List.not_mem_nil,
            or_false] at hmem4
          rcases hmem4 with h | h | h | h <;> rw [h]
          · exact Or.inl (by decide)
          · exact Or.inr (Or.inl (by decide))
          · exact Or.inr (Or.inr (Or.inl (by decide)))
          · exact Or.inr (Or.inr (Or.inr (by decide)))
        refine ⟨std.display ++ str " - " ++ (pyLower sfx).take 3, heval2, ?_⟩
        rcases habb with h | h | h | h <;> rw [h] <;>
          exact standardize_second std hmem _ (by decide) (by decide)
            (by decide)
      · rw [if_neg hin] at heval2
        refine ⟨std.display ++ str " - " ++ sfx, heval2, ?_⟩
        refine standardize_second std hmem sfx ?_ hsfx_strip ?_
        · simp only [Bool.not_eq_true] at hemp
          exact hemp
        · simp only [Bool.not_eq_true] at hin
          exact hin

theorem claim_C6_witness :
    ∃ y : Str, standardize_unit (some (str "Ohms - maximum")) = some y ∧
      standardize_unit (some y) = some y :=
  claim_C6 (str "Ohms - maximum") (by decide)

theorem nodupKeys_nil {α : Type} : NodupKeys ([] : Dict α) := by
  simp [NodupKeys, dkeys]

theorem parseInv_nil : ParseInv [] :=
  ⟨nodupKeys_nil, fun p hp => absurd hp (List.not_mem_nil p)⟩

theorem parseInv_dset {d : Dict (Dict (Dict PDFSpecification))} {k : Str}
    {v : Dict (Dict PDFSpecification)} (h : ParseInv d) (hv : NodupKeys v) :
    ParseInv (dset d k v) := by
  refine ⟨nodupKeys_dset k v h.1, fun p hp => ?_⟩
  rcases values_dset hp with hp | hp
  · rw [hp]
    exact hv
  · exact h.2 p hp

theorem dgetD_nodup {d : Dict (Dict (Dict PDFSpecification))} {k : Str}
    (h : ParseInv d) : NodupKeys (dgetD d k []) := by
  unfold dgetD
  cases hd : dget? d k with
  | none => exact nodupKeys_nil
  | some v => exact h.2 (k, v) (dget?_mem hd)

theorem ensureSection_inv {specs : Dict (Dict (Dict PDFSpecification))}
    (section_name : Str) (h : ParseInv specs) :
    ParseInv (ensureSection specs section_name) := by
  unfold ensureSection
  by_cases hm : (!(dmem specs section_name)) = true
  · rw [if_pos hm]
    exact parseInv_dset h nodupKeys_nil
  · rw [if_neg hm]
    exact h

theorem registerCategory_inv {specs : Dict (Dict (Dict PDFSpecification))}
    (section_name c : Str) (h : ParseInv specs) :
    ParseInv (registerCategory specs section_name c) := by
  unfold registerCategory
  have h1 := ensureSection_inv section_name h
  by_cases hm : (!(dmem (dgetD (ensureSection specs section_name)
      section_name []) c)) = true
  · rw [if_pos hm]
    exact parseInv_dset h1 (nodupKeys_dset c [] (dgetD_nodup h1))
  · rw [if_neg hm]
    exact h1

theorem ensureInnerCat_nodup {inner : Dict (Dict PDFSpecification)} (c : Str)
    (h : NodupKeys inner) : NodupKeys (ensureInnerCat inner c) := by
  unfold ensureInnerCat
  by_cases hm : (!(dmem inner c)) = true
  · rw [if_pos hm]
    exact nodupKeys_dset c [] h
  · rw [if_neg hm]
    exact h

theorem insertSpec_inv {specs : Dict (Dict (Dict PDFSpecification))}
    (cs c subcategory : Str) (spec : PDFSpecification) (h : ParseInv specs) :
    ParseInv (insertSpec specs cs c subcategory spec) := by
  unfold insertSpec
  exact parseInv_dset h
    (nodupKeys_dset c _ (ensureInnerCat_nodup c (dgetD_nodup h)))

theorem processRowCategory_inv (st : ParseState) (category : Option Str)
    (h : ParseInv st.specs) :
    ParseInv (processRowCategory st category).specs := by
  unfold processRowCategory
  split
  · exact registerCategory_inv _ _ h
  · exact h

theorem processRowValue_inv (row_data : List Str) (category : Option Str)
    (subcategory : Str) (st1 : ParseState) (h : ParseInv st1.specs) :
    ParseInv (processRowValue row_data category subcategory st1).specs := by
  unfold processRowValue
  split
  · split
    · exact insertSpec_inv _ _ _ _ h
    · exact h
  · exact h

theorem processRow_inv (st : ParseState) (row : List Str)
    (h : ParseInv st.specs) : ParseInv (processRow st row).specs := by
  unfold processRow processRowCells
  split
  · exact h
  · exact processRowValue_inv _ _ _ _ (processRowCategory_inv _ _ h)

theorem parseRows_inv (rows : List (List Str)) :
    ∀ st : ParseState, ParseInv st.specs →
    ParseInv (rows.foldl processRow st).specs := by
  induction rows with
  | nil =>
    intro st h
    exact h
  | cons r t ih =>
    intro st h
    exact ih _ (processRow_inv st r h)

theorem parse_table_inv (table : List (List Str)) :
    ParseInv (_parse_table_to_specs table) := by
  cases table with
  | nil => exact parseInv_nil
  | cons row0 rest =>
    show ParseInv (if isFeaturesTable (cleanedFirstRow row0) = true then []
      else parseRows (if is_first_row_data (cleanedFirstRow row0) = true
        then row0 :: rest else rest))
    by_cases hf : isFeaturesTable (cleanedFirstRow row0) = true
    · rw [if_pos hf]
      exact parseInv_nil
    · rw [if_neg hf]
      exact parseRows_inv _ (ParseState.mk [] none none) parseInv_nil

theorem catAssign_lookup_other (sname : Str) (sections : Dict PDFSection)
    (q : Str × Dict PDFSpecification) {sect : Str} (cat : Str)
    (hs : sect ≠ sname) :
    lookupCategory (catAssign sname sections q) sect cat =
      lookupCategory sections sect cat := by
  unfold catAssign lookupCategory
  rw [dget?_dset_ne _ _ hs]

theorem catAssign_lookup_same_other (sname : Str) (sections : Dict PDFSection)
    (q : Str × Dict PDFSpecification) {cat : Str} (hc : cat ≠ q.1) :
    lookupCategory (catAssign sname sections q) sname cat =
      lookupCategory sections sname cat := by
  unfold catAssign lookupCategory
  rw [dget?_dset_self]
  show dget? (dset (dgetD sections sname (PDFSection.mk [])).categories q.1
    (PDFCategory.mk q.2)) cat = _
  rw [dget?_dset_ne _ _ hc]
  unfold dgetD
  cases hd : dget? sections sname with
  | none => rfl
  | some s => rfl

theorem catAssign_lookup_same (sname : Str) (sections : Dict PDFSection)
    (q : Str × Dict PDFSpecification) :
    lookupCategory (catAssign sname sections q) sname q.1 =
      some (PDFCategory.mk q.2) := by
  unfold catAssign lookupCategory
  rw [dget?_dset_self]
  show dget? (dset (dgetD sections sname (PDFSection.mk [])).categories q.1
    (PDFCategory.mk q.2)) q.1 = _
  rw [dget?_dset_self]

theorem catFold_lookup (sname : Str) :
    ∀ (cats : Dict (Dict PDFSpecification)), NodupKeys cats →
    ∀ (sections : Dict PDFSection) (sect cat : Str),
    lookupCategory (cats.foldl (catAssign sname) sections) sect cat =
    (if sect = sname then
      match dget? cats cat with
      | some subs => some (PDFCategory.mk subs)
      | none => lookupCategory sections sect cat
     else lookupCategory sections sect cat) := by
  intro cats
  induction cats with
  | nil =>
    intro _ sections sect cat
    by_cases hs : sect = sname
    · rw [if_pos hs]
      rfl
    · rw [if_neg hs]
      rfl
  | cons q restc ih =>
    intro hnd sections sect cat
    obtain ⟨qc, qsubs⟩ := q
    have hnd' : NodupKeys restc := by
      have := hnd
      unfold NodupKeys at this ⊢
      simp only [dkeys, List.map_cons, List.nodup_cons] at this
      exact this.2
    have hqc : qc ∉ dkeys restc := by
      have := hnd
      unfold NodupKeys at this
      simp only [dkeys, List.map_cons, List.nodup_cons] at this
      exact this.1
    rw [List.foldl_cons]
    rw [ih hnd' _ sect cat]
    by_cases hs : sect = sname
    · subst hs
      rw [if_pos rfl, if_pos rfl]
      by_cases hc : cat = qc
      · subst hc
        rw [show dget? restc cat = none from
          dget?_eq_none_of_not_mem (by exact hqc)]
        rw [show dget? ((cat, qsubs) :: restc) cat = some qsubs from by
          simp [dget?]]
        exact catAssign_lookup_same sect sections (cat, qsubs)
      · have hcq : ¬(qc = cat) := fun h => hc h.symm
        rw [show dget? ((qc, qsubs) :: restc) cat = dget? restc cat from by
          simp [dget?, hcq]]
        cases hd : dget? restc cat with
        | some subs => rfl
        | none =>
          exact catAssign_lookup_same_other sect sections (qc, qsubs) hc
    · rw [if_neg hs, if_neg hs]
      exact catAssign_lookup_other sname sections (qc, qsubs) cat hs

theorem ensure_lookup (sections : Dict PDFSection) (s sect cat : Str) :
    lookupCategory
      (if !(dmem sections s) then dset sections s (PDFSection.mk [])
       else sections) sect cat =
    lookupCategory sections sect cat := by
  by_cases hm : (!(dmem sections s)) = true
  · rw [if_pos hm]
    by_cases hs : sect = s
    · subst hs
      unfold lookupCategory
      rw [dget?_dset_self]
      have hnone : dget? sections sect = none := by
        simp only [Bool.not_eq_true', dmem] at hm
        exact Option.not_isSome_iff_eq_none.mp (by rw [hm]; exact
          Bool.false_ne_true)
      rw [hnone]
      rfl
    · unfold lookupCategory
      rw [dget?_dset_ne _ _ hs]
  · rw [if_neg hm]

theorem sectionAssign_lookup (sections : Dict PDFSection)
    (p : Str × Dict (Dict PDFSpecification)) (hnd : NodupKeys p.2)
    (sect cat : Str) :
    lookupCategory (sectionAssign sections p) sect cat =
    (if sect = p.1 then
      match dget? p.2 cat with
      | some subs => some (PDFCategory.mk subs)
      | none => lookupCategory sections sect cat
     else lookupCategory sections sect cat) := by
  unfold sectionAssign
  rw [catFold_lookup p.1 p.2 hnd _ sect cat]
  by_cases hs : sect = p.1
  · rw [if_pos hs, if_pos hs]
    cases hd : dget? p.2 cat with
    | some subs => rfl
    | none => exact ensure_lookup sections p.1 sect cat
  · rw [if_neg hs, if_neg hs]
    exact ensure_lookup sections p.1 sect cat

theorem sectionFold_lookup :
    ∀ (specs : Dict (Dict (Dict PDFSpecification))), ParseInv specs →
    ∀ (sections : Dict PDFSection) (sect cat : Str),
    lookupCategory (specs.foldl sectionAssign sections) sect cat =
    (match
      (match dget? specs sect with
       | none => none
       | some cs => dget? cs cat : Option (Dict PDFSpecification)) with
     | some subs => some (PDFCategory.mk subs)
     | none => lookupCategory sections sect cat) := by
  intro specs
  induction specs with
  | nil =>
    intro _ sections sect cat
    rfl
  | cons p restp ih =>
    intro hinv sections sect cat
    obtain ⟨s0, cats0⟩ := p
    have hnd0 : NodupKeys cats0 :=
      hinv.2 (s0, cats0) (List.mem_cons_self _ _)
    have hinv' : ParseInv restp := by
      refine ⟨?_, fun q hq => hinv.2 q (List.mem_cons_of_mem _ hq)⟩
      have := hinv.1
      unfold NodupKeys at this ⊢
      simp only [dkeys, List.map_cons, List.nodup_cons] at this
      exact this.2
    have hs0 : s0 ∉ dkeys restp := by
      have := hinv.1
      unfold NodupKeys at this
      simp only [dkeys, List.map_cons, List.nodup_cons] at this
      exact this.1
    rw [List.foldl_cons]
    rw [ih hinv' _ sect cat]
    by_cases hs : sect = s0
    · subst hs
      rw [show dget? restp sect = none from
        dget?_eq_none_of_not_mem (by exact hs0)]
      rw [show dget? ((sect, cats0) :: restp) sect = some cats0 from by
        simp [dget?]]
      have hsa := sectionAssign_lookup sections (sect, cats0) hnd0 sect cat
      rw [if_pos rfl] at hsa
      rw [hsa]
    · have hs0s : ¬(s0 = sect) := fun h => hs h.symm
      rw [show dget? ((s0, cats0) :: restp) sect = dget? restp sect from by
        simp [dget?, hs0s]]
      have hsa := sectionAssign_lookup sections (s0, cats0) hnd0 sect cat
      rw [if_neg hs] at hsa
      cases hd : dget? restp sect with
      | none => rw [hsa]
      | some cs =>
        cases hd2 : dget? cs cat with
        | none => rw [hsa]
        | some subs =>
          have h3 : (match some cs with
            | none => none
            | some cs => dget? cs cat : Option (Dict PDFSpecification)) =
              some subs := hd2
          rw [h3]

theorem tableAssign_lookup (sections : Dict PDFSection)
    (t : List (List Str)) (sect cat : Str) :
    lookupCategory (tableAssign sections t) sect cat =
    (match tableContribution t sect cat with
     | some subs => some (PDFCategory.mk subs)
     | none => lookupCategory sections sect cat) := by
  unfold tableAssign tableContribution
  by_cases he : (_parse_table_to_specs t).isEmpty = true
  · rw [if_pos he]
    rw [List.isEmpty_iff.mp he]
    rfl
  · rw [if_neg he]
    exact sectionFold_lookup (_parse_table_to_specs t) (parse_table_inv t)
      sections sect cat

theorem getLast?_cons_eq {α : Type} (a : α) (l : List α) :
    (a :: l).getLast? =
      (match l.getLast? with
       | some y => some y
       | none => some a) := by
  cases l with
  | nil => rfl
  | cons b t =>
    rw [List.getLast?_cons_cons]
    have h : (b :: t).getLast?.isSome := by
      rw [List.getLast?_isSome]
      simp
    obtain ⟨y, hy⟩ := Option.isSome_iff_exists.mp h
    rw [hy]

theorem tablesFold_lookup :
    ∀ (tables : List (List (List Str))) (sections : Dict PDFSection)
      (sect cat : Str),
    lookupCategory (tables.foldl tableAssign sections) sect cat =
    (match
      (tables.filterMap (fun t => tableContribution t sect cat)).getLast? with
     | some subs => some (PDFCategory.mk subs)
     | none => lookupCategory sections sect cat) := by
  intro tables
  induction tables with
  | nil =>
    intro sections sect cat
    rfl
  | cons t ts ih =>
    intro sections sect cat
    rw [List.foldl_cons]
    rw [ih _ sect cat]
    cases hct : tableContribution t sect cat with
    | none =>
      rw [show ts.filterMap (fun u => tableContribution u sect cat) =
        (t :: ts).filterMap (fun u => tableContribution u sect cat) from by
          rw [List.filterMap_cons, hct]]
      cases hl : ((t :: ts).filterMap
          (fun u => tableContribution u sect cat)).getLast? with
      | some subs => rfl
      | none =>
        rw [tableAssign_lookup, hct]
    | some x =>
      rw [show (t :: ts).filterMap (fun u => tableContribution u sect cat) =
        x :: ts.filterMap (fun u => tableContribution u sect cat) from by
          rw [List.filterMap_cons, hct]]
      rw [getLast?_cons_eq]
      cases hl : (ts.filterMap
          (fun u => tableContribution u sect cat)).getLast? with
      | some y => rfl
      | none =>
        rw [tableAssign_lookup, hct]

/-- C2 amended: for every document, section and category, the builder's
merged section map holds exactly the subcategory map of the last table
contributing that (section, category) pair, wrapped in a PDFCategory:
earlier tables' subcategory maps for the same pair are replaced, while
pairs contributed by no later table survive. -/
theorem claim_C2_amended (tables : List (List (List Str))) (sect cat : Str) :
    lookupCategory (_process_specification_tables tables) sect cat =
    ((tables.filterMap (fun t => tableContribution t sect cat)).getLast?).map
      PDFCategory.mk := by
  unfold _process_specification_tables
  rw [tablesFold_lookup tables [] sect cat]
  cases (tables.filterMap (fun t => tableContribution t sect cat)).getLast? with
  | none => rfl
  | some subs => rfl
